import Mathlib

/-!
libpeas: the file peas-introspection.c

A shallow embedding of `src/libpeas/peas-introspection.c` and theorems about it.

Modelling decisions (each is visible in the definitions below):

* `GArgument` is a C union.  It is embedded as a record with one component per
  union member the file touches; an assignment to a member updates that
  component only.  `g_new0` yields the all-zero record.
* A `va_list` is a list of promoted slots.  A slot is int-sized, 64-bit
  integer-sized, double-sized or pointer-sized.  `va_arg` with a type of another
  size class, or on an exhausted list, is undefined behaviour in C; the
  embedding stops there with an explicit `UB` value instead of inventing a result.
* The target is x86-64, where `va_list` is an array type.  The parameter
  `va_list args` of `peas_method_apply_valist` (line 216) therefore has the
  type `__va_list_tag *`, and the expression `&args` in the loop (line 254) is a
  `__va_list_tag **` that `read_next_argument` receives as its `va_list *`
  (line 30).  What is behind that pointer is not a `va_list`: every case of the
  switch that applies `va_arg` to it is undefined behaviour, and only the
  default case, which does not touch it, returns.  The function
  `read_next_argument` itself, called with a pointer to a `va_list`, is
  embedded as written.
* Integers are mathematical integers, with an explicit reduction modulo `2^w`
  wherever the C code converts to a narrower or differently signed type
  (LP64: `gint` is 32 bits wide, `gsize` and `GType` are 64 bits wide).
* Floating point values are carried as uninterpreted bit patterns; the
  narrowing conversion from `gdouble` to `gfloat` is a parameter.
* The type registry (`g_irepository_find_by_gtype`, the two `find_method`
  lookups) and the generic invoker (`g_function_info_invoke`) belong to an
  separate library; they are parameters, collected in `Collaborators`.
* Caller memory is a map from addresses to typed cells; `0` is `NULL`.
* GLib precondition checks (`g_return_val_if_fail`) are compiled in, which is
  the default build.  Log output (`g_warning`, `g_debug`) is not modelled.
* Every acquisition and release of a resource, every call of the invoker and
  every call of `set_return_value` is recorded in a trace.
-/

namespace Peas

/-! ## Data model -/

/-- Type tags of a `GITypeInfo`.  The constructor `OTHER` stands for every tag
value for which neither switch of the file has a case. -/
inductive GITypeTag where
  | GI_TYPE_TAG_VOID
  | GI_TYPE_TAG_BOOLEAN
  | GI_TYPE_TAG_INT8
  | GI_TYPE_TAG_UINT8
  | GI_TYPE_TAG_INT16
  | GI_TYPE_TAG_UINT16
  | GI_TYPE_TAG_INT32
  | GI_TYPE_TAG_UINT32
  | GI_TYPE_TAG_INT64
  | GI_TYPE_TAG_UINT64
  | GI_TYPE_TAG_FLOAT
  | GI_TYPE_TAG_DOUBLE
  | GI_TYPE_TAG_GTYPE
  | GI_TYPE_TAG_UTF8
  | GI_TYPE_TAG_FILENAME
  | GI_TYPE_TAG_ARRAY
  | GI_TYPE_TAG_INTERFACE
  | GI_TYPE_TAG_GLIST
  | GI_TYPE_TAG_GSLIST
  | GI_TYPE_TAG_GHASH
  | GI_TYPE_TAG_ERROR
  | OTHER (code : Nat)
  deriving DecidableEq, Repr

/-- Direction of a declared argument. -/
inductive GIDirection where
  | GI_DIRECTION_IN
  | GI_DIRECTION_OUT
  | GI_DIRECTION_INOUT
  deriving DecidableEq, Repr

/-- Structural category of a registry entry.  The constructor `OTHER` stands for
every category other than object and interface. -/
inductive GIInfoType where
  | GI_INFO_TYPE_OBJECT
  | GI_INFO_TYPE_INTERFACE
  | OTHER (code : Nat)
  deriving DecidableEq, Repr

open GITypeTag GIDirection GIInfoType

/-- An address; `0` is `NULL`. -/
abbrev gpointer := Nat

/-- A type identifier (`GType`). -/
abbrev GType := Nat

/-- Bit pattern of a `gdouble`. -/
structure gdouble where
  bits : Nat
  deriving DecidableEq, Repr

/-- Bit pattern of a `gfloat`. -/
structure gfloat where
  bits : Nat
  deriving DecidableEq, Repr

/-- The members of the `GArgument` union that the file reads or writes. -/
structure GArgument where
  v_boolean : Int := 0
  v_int8 : Int := 0
  v_uint8 : Int := 0
  v_int16 : Int := 0
  v_uint16 : Int := 0
  v_int32 : Int := 0
  v_uint32 : Int := 0
  v_int64 : Int := 0
  v_uint64 : Int := 0
  v_float : gfloat := ⟨0⟩
  v_double : gdouble := ⟨0⟩
  v_size : Int := 0
  v_string : gpointer := 0
  v_pointer : gpointer := 0
  deriving DecidableEq, Repr

/-- The zero-filled `GArgument` that `g_new0` produces. -/
def GArgument.zero : GArgument := {}

/-- Type descriptor: only its tag is inspected (`g_type_info_get_tag`). -/
structure GITypeInfo where
  tag : GITypeTag
  deriving DecidableEq, Repr

/-- Argument descriptor: `g_arg_info_get_direction` and `g_arg_info_get_type`. -/
structure GIArgInfo where
  direction : GIDirection
  type_info : GITypeInfo
  deriving DecidableEq, Repr

/-- Method descriptor: `g_callable_info_get_n_args` is `args.length`,
`g_callable_info_get_arg` indexes `args`, `g_callable_info_get_return_type`
is `return_type`. -/
structure GICallableInfo where
  args : List GIArgInfo
  return_type : GITypeInfo
  deriving DecidableEq, Repr

/-- Registry entry: `g_base_info_get_type` is `info_type`. -/
structure GIBaseInfo where
  handle : Nat
  info_type : GIInfoType
  deriving DecidableEq, Repr

/-- One promoted slot of a variadic argument list. -/
inductive VaSlot where
  | int (v : Int)
  | word64 (v : Int)
  | double (v : gdouble)
  | pointer (p : gpointer)
  deriving DecidableEq, Repr

/-- The variadic cursor: the slots not yet consumed. -/
abbrev va_list := List VaSlot

/-- A typed cell of caller memory, named after the C type of the store. -/
inductive CValue where
  | gboolean (v : Int)
  | gint8 (v : Int)
  | guint8 (v : Int)
  | gint16 (v : Int)
  | guint16 (v : Int)
  | gint32 (v : Int)
  | guint32 (v : Int)
  | gint64 (v : Int)
  | guint64 (v : Int)
  | gfloat (v : gfloat)
  | gdouble (v : gdouble)
  | gsize (v : Int)
  | pointer (p : gpointer)
  deriving DecidableEq, Repr

/-- Caller memory. -/
abbrev Memory := gpointer → Option CValue

/-- The store `*(T *) p = v`. -/
def Memory.store (mem : Memory) (p : gpointer) (v : CValue) : Memory :=
  fun q => if q = p then some v else mem q

/-- Resources that the file acquires and releases. -/
inductive Resource where
  | iface_info
  | func_info
  | retval_info
  | in_args
  | out_args
  | arg_info (i : Nat)
  | arg_type_info (i : Nat)
  deriving DecidableEq, Repr

/-- Observable events of one call. -/
inductive Event where
  | acquire (r : Resource)
  | release (r : Resource)
  | invoke (in_args : List GArgument) (n_in_args : Nat)
      (out_args : List GArgument) (n_out_args : Nat) (success : Bool)
  | set_return_value (in_retval : gpointer)
  deriving DecidableEq, Repr

/-- The ways in which the C code can leave defined behaviour. -/
inductive UB where
  | va_arg_type_mismatch
  | va_arg_exhausted
  | va_list_pointer_mismatch
  | in_args_out_of_bounds
  | out_args_out_of_bounds
  deriving DecidableEq, Repr

/-- Result of a computation that may reach undefined behaviour; the error case
carries the events recorded before that point. -/
abbrev Run (α : Type) := Except (UB × List Event) α

/-! ## Integer conversions -/

/-- Conversion of an integer to `gint8`. -/
def to_gint8 (v : Int) : Int := (v + 128) % 256 - 128

/-- Conversion of an integer to `guint8`. -/
def to_guint8 (v : Int) : Int := v % 256

/-- Conversion of an integer to `gint16`. -/
def to_gint16 (v : Int) : Int := (v + 32768) % 65536 - 32768

/-- Conversion of an integer to `guint16`. -/
def to_guint16 (v : Int) : Int := v % 65536

/-- Conversion of an integer to `gint32` (also `gint`, `gboolean`). -/
def to_gint32 (v : Int) : Int := (v + 2147483648) % 4294967296 - 2147483648

/-- Conversion of an integer to `guint32`. -/
def to_guint32 (v : Int) : Int := v % 4294967296

/-- Conversion of an integer to `gint64`. -/
def to_gint64 (v : Int) : Int :=
  (v + 9223372036854775808) % 18446744073709551616 - 9223372036854775808

/-- Conversion of an integer to `guint64` (also `gsize`, `GType`). -/
def to_guint64 (v : Int) : Int := v % 18446744073709551616

/-! ## The variadic cursor -/

/-- The operation `va_arg (args, T)` for an int-sized `T`: the raw slot value. -/
def va_arg_int (args : va_list) : Except UB (Int × va_list) :=
  match args with
  | VaSlot.int v :: rest => .ok (v, rest)
  | _ :: _ => .error UB.va_arg_type_mismatch
  | [] => .error UB.va_arg_exhausted

/-- The operation `va_arg (args, T)` for a 64-bit integer `T`: the raw slot value. -/
def va_arg_word64 (args : va_list) : Except UB (Int × va_list) :=
  match args with
  | VaSlot.word64 v :: rest => .ok (v, rest)
  | _ :: _ => .error UB.va_arg_type_mismatch
  | [] => .error UB.va_arg_exhausted

/-- The operation `va_arg (args, gdouble)`. -/
def va_arg_gdouble (args : va_list) : Except UB (gdouble × va_list) :=
  match args with
  | VaSlot.double v :: rest => .ok (v, rest)
  | _ :: _ => .error UB.va_arg_type_mismatch
  | [] => .error UB.va_arg_exhausted

/-- The operation `va_arg (args, gpointer)`, also used for `gchar *`. -/
def va_arg_gpointer (args : va_list) : Except UB (gpointer × va_list) :=
  match args with
  | VaSlot.pointer p :: rest => .ok (p, rest)
  | _ :: _ => .error UB.va_arg_type_mismatch
  | [] => .error UB.va_arg_exhausted

/-! ## The codec -/

/-- The function `read_next_argument`.  The result holds the returned
`gboolean`, the `GArgument` behind `cur_arg` and the cursor behind `args`. -/
def read_next_argument (narrow : gdouble → gfloat) (cur_arg : GArgument)
    (args : va_list) (tag : GITypeTag) : Except UB (Bool × GArgument × va_list) :=
  match tag with
  | GI_TYPE_TAG_VOID | GI_TYPE_TAG_BOOLEAN =>
    match va_arg_int args with
    | .error e => .error e
    | .ok (v, rest) => .ok (true, { cur_arg with v_boolean := to_gint32 v }, rest)
  | GI_TYPE_TAG_INT8 =>
    match va_arg_int args with
    | .error e => .error e
    | .ok (v, rest) => .ok (true, { cur_arg with v_int8 := to_gint8 (to_gint32 v) }, rest)
  | GI_TYPE_TAG_UINT8 =>
    match va_arg_int args with
    | .error e => .error e
    | .ok (v, rest) => .ok (true, { cur_arg with v_uint8 := to_guint8 (to_gint32 v) }, rest)
  | GI_TYPE_TAG_INT16 =>
    match va_arg_int args with
    | .error e => .error e
    | .ok (v, rest) => .ok (true, { cur_arg with v_int16 := to_gint16 (to_gint32 v) }, rest)
  | GI_TYPE_TAG_UINT16 =>
    match va_arg_int args with
    | .error e => .error e
    | .ok (v, rest) => .ok (true, { cur_arg with v_uint16 := to_guint16 (to_gint32 v) }, rest)
  | GI_TYPE_TAG_INT32 =>
    match va_arg_int args with
    | .error e => .error e
    | .ok (v, rest) => .ok (true, { cur_arg with v_int32 := to_gint32 v }, rest)
  | GI_TYPE_TAG_UINT32 =>
    match va_arg_int args with
    | .error e => .error e
    | .ok (v, rest) => .ok (true, { cur_arg with v_uint32 := to_guint32 v }, rest)
  | GI_TYPE_TAG_INT64 =>
    match va_arg_word64 args with
    | .error e => .error e
    | .ok (v, rest) => .ok (true, { cur_arg with v_int64 := to_gint64 v }, rest)
  | GI_TYPE_TAG_UINT64 =>
    match va_arg_word64 args with
    | .error e => .error e
    | .ok (v, rest) => .ok (true, { cur_arg with v_uint64 := to_guint64 v }, rest)
  | GI_TYPE_TAG_FLOAT =>
    match va_arg_gdouble args with
    | .error e => .error e
    | .ok (v, rest) => .ok (true, { cur_arg with v_float := narrow v }, rest)
  | GI_TYPE_TAG_DOUBLE =>
    match va_arg_gdouble args with
    | .error e => .error e
    | .ok (v, rest) => .ok (true, { cur_arg with v_double := v }, rest)
  | GI_TYPE_TAG_GTYPE =>
    match va_arg_word64 args with
    | .error e => .error e
    | .ok (v, rest) => .ok (true, { cur_arg with v_size := to_guint64 v }, rest)
  | GI_TYPE_TAG_UTF8 | GI_TYPE_TAG_FILENAME =>
    match va_arg_gpointer args with
    | .error e => .error e
    | .ok (p, rest) => .ok (true, { cur_arg with v_string := p }, rest)
  | GI_TYPE_TAG_ARRAY | GI_TYPE_TAG_INTERFACE | GI_TYPE_TAG_GLIST
  | GI_TYPE_TAG_GSLIST | GI_TYPE_TAG_GHASH | GI_TYPE_TAG_ERROR =>
    match va_arg_gpointer args with
    | .error e => .error e
    | .ok (p, rest) => .ok (true, { cur_arg with v_pointer := p }, rest)
  | GITypeTag.OTHER _ => .ok (false, cur_arg, args)

/-- The function `set_return_value`.  The result holds the returned `gboolean`
and caller memory after the call. -/
def set_return_value (in_retval : gpointer) (out_retval : GArgument)
    (tag : GITypeTag) (mem : Memory) : Bool × Memory :=
  if in_retval = 0 then (true, mem)
  else
    match tag with
    | GI_TYPE_TAG_VOID | GI_TYPE_TAG_BOOLEAN =>
      (true, mem.store in_retval (CValue.gboolean out_retval.v_boolean))
    | GI_TYPE_TAG_INT8 => (true, mem.store in_retval (CValue.gint8 out_retval.v_int8))
    | GI_TYPE_TAG_UINT8 => (true, mem.store in_retval (CValue.guint8 out_retval.v_uint8))
    | GI_TYPE_TAG_INT16 => (true, mem.store in_retval (CValue.gint16 out_retval.v_int16))
    | GI_TYPE_TAG_UINT16 => (true, mem.store in_retval (CValue.guint16 out_retval.v_uint16))
    | GI_TYPE_TAG_INT32 => (true, mem.store in_retval (CValue.gint32 out_retval.v_int32))
    | GI_TYPE_TAG_UINT32 => (true, mem.store in_retval (CValue.guint32 out_retval.v_uint32))
    | GI_TYPE_TAG_INT64 => (true, mem.store in_retval (CValue.gint64 out_retval.v_int64))
    | GI_TYPE_TAG_UINT64 => (true, mem.store in_retval (CValue.guint64 out_retval.v_uint64))
    | GI_TYPE_TAG_FLOAT => (true, mem.store in_retval (CValue.gfloat out_retval.v_float))
    | GI_TYPE_TAG_DOUBLE => (true, mem.store in_retval (CValue.gdouble out_retval.v_double))
    | GI_TYPE_TAG_GTYPE => (true, mem.store in_retval (CValue.gsize out_retval.v_size))
    | GI_TYPE_TAG_UTF8 | GI_TYPE_TAG_FILENAME =>
      (true, mem.store in_retval (CValue.pointer out_retval.v_string))
    | GI_TYPE_TAG_ARRAY | GI_TYPE_TAG_INTERFACE | GI_TYPE_TAG_GLIST
    | GI_TYPE_TAG_GSLIST | GI_TYPE_TAG_GHASH | GI_TYPE_TAG_ERROR =>
      (true, mem.store in_retval (CValue.pointer out_retval.v_pointer))
    | GITypeTag.OTHER _ => (false, mem)

/-! ## The resolver -/

/-- The library functions the file calls: the type registry, the two method
lookups, the generic invoker, and the conversion from `gdouble` to `gfloat`.
The invoker receives the descriptor, both arrays with their counts and caller
memory; it yields its success flag, the return value and caller memory after
the call. -/
structure Collaborators where
  g_irepository_find_by_gtype : GType → Option GIBaseInfo
  g_object_info_find_method : GIBaseInfo → String → Option GICallableInfo
  g_interface_info_find_method : GIBaseInfo → String → Option GICallableInfo
  g_function_info_invoke : GICallableInfo → List GArgument → Nat → List GArgument → Nat →
    Memory → Bool × GArgument × Memory
  gdouble_to_gfloat : gdouble → gfloat

/-- The function `peas_method_get_info`: the descriptor or `NULL`, and the
events of the lookup. -/
def peas_method_get_info (lib : Collaborators) (iface_type : GType)
    (method_name : String) : Option GICallableInfo × List Event :=
  match lib.g_irepository_find_by_gtype iface_type with
  | none => (none, [])
  | some iface_info =>
    let func_info :=
      match iface_info.info_type with
      | GI_INFO_TYPE_OBJECT => lib.g_object_info_find_method iface_info method_name
      | GI_INFO_TYPE_INTERFACE => lib.g_interface_info_find_method iface_info method_name
      | GIInfoType.OTHER _ => none
    match func_info with
    | none =>
      (none, [Event.acquire Resource.iface_info, Event.release Resource.iface_info])
    | some fi =>
      (some fi, [Event.acquire Resource.iface_info, Event.acquire Resource.func_info,
        Event.release Resource.iface_info])

/-! ## The orchestrator -/

/-- The local variables of `peas_method_apply_valist` that the marshaling loop
reads and writes, and the trace. -/
structure MarshalState where
  ret : Bool
  in_args : List GArgument
  n_in_args : Nat
  out_args : List GArgument
  n_out_args : Nat
  args : va_list
  trace : List Event
  deriving DecidableEq, Repr

/-- A write to element `i` of an array; outside the allocation it is undefined. -/
def array_write (oob : UB) (a : List GArgument) (i : Nat) (f : GArgument → GArgument)
    (trace : List Event) : Run (List GArgument) :=
  if i < a.length then .ok (a.set i (f (a.getD i GArgument.zero)))
  else .error (oob, trace)

/-- One iteration of the marshaling loop of `peas_method_apply_valist`, for
declared argument `i` with descriptor `arg_info`.

In the case `GI_DIRECTION_IN` the call `read_next_argument (.., &args, ..)`
passes the address of the by-value parameter `args`, a `__va_list_tag **`, for
a `va_list *`.  The default case of the switch in `read_next_argument` does not
touch `*args` and returns `FALSE`; every other case applies `va_arg` to an
object that is not a `va_list`, which is undefined behaviour.  The cursor of
the caller is not advanced by the call. -/
def marshal_arg (narrow : gdouble → gfloat) (i : Nat) (arg_info : GIArgInfo)
    (st : MarshalState) : Run MarshalState :=
  let tr := st.trace ++ [Event.acquire (Resource.arg_info i),
    Event.acquire (Resource.arg_type_info i)]
  let unref := [Event.release (Resource.arg_type_info i), Event.release (Resource.arg_info i)]
  match arg_info.direction with
  | GI_DIRECTION_IN =>
    match read_next_argument narrow (st.in_args.getD st.n_in_args GArgument.zero) st.args
        arg_info.type_info.tag with
    | .ok (false, _, _) =>
      .ok { st with ret := false, n_in_args := st.n_in_args + 1, trace := tr ++ unref }
    | _ => .error (UB.va_list_pointer_mismatch, tr)
  | GI_DIRECTION_INOUT =>
    match va_arg_gpointer st.args with
    | .error e => .error (e, tr)
    | .ok (p, args) =>
      match array_write UB.out_args_out_of_bounds st.out_args st.n_out_args
          (fun a => { a with v_pointer := p }) tr with
      | .error e => .error e
      | .ok out_args =>
        match array_write UB.in_args_out_of_bounds st.in_args st.n_in_args
            (fun a => { a with v_pointer := p }) tr with
        | .error e => .error e
        | .ok in_args =>
          .ok { st with in_args := in_args, n_in_args := st.n_in_args + 1,
                        out_args := out_args, n_out_args := st.n_out_args + 1,
                        args := args, trace := tr ++ unref }
  | GI_DIRECTION_OUT =>
    match va_arg_gpointer st.args with
    | .error e => .error (e, tr)
    | .ok (p, args) =>
      match array_write UB.out_args_out_of_bounds st.out_args st.n_out_args
          (fun a => { a with v_pointer := p }) tr with
      | .error e => .error e
      | .ok out_args =>
        .ok { st with out_args := out_args, n_out_args := st.n_out_args + 1,
                      args := args, trace := tr ++ unref }

/-- The marshaling loop `for (i = 0; ret && i < n_args; i++)`, entered at index
`i` with the descriptors of the arguments from `i` on. -/
def marshal_loop (narrow : gdouble → gfloat) :
    Nat → List GIArgInfo → MarshalState → Run MarshalState
  | _, [], st => .ok st
  | i, arg_info :: rest, st =>
    if st.ret then
      match marshal_arg narrow i arg_info st with
      | .error e => .error e
      | .ok st1 => marshal_loop narrow (i + 1) rest st1
    else .ok st

/-- The marshaling phase of `peas_method_apply_valist`: from the return type
lookup to the end of the loop.  The argument `trace` holds the events so far. -/
def marshal (narrow : gdouble → gfloat) (inst : gpointer) (func_info : GICallableInfo)
    (args : va_list) (trace : List Event) : Run MarshalState :=
  let n_args := func_info.args.length
  let tr := trace ++ [Event.acquire Resource.retval_info, Event.acquire Resource.in_args,
    Event.acquire Resource.out_args]
  match array_write UB.in_args_out_of_bounds (List.replicate (n_args + 1) GArgument.zero) 0
      (fun a => { a with v_pointer := inst }) tr with
  | .error e => .error e
  | .ok in_args =>
    marshal_loop narrow 0 func_info.args
      { ret := true, in_args := in_args, n_in_args := 1,
        out_args := List.replicate n_args GArgument.zero, n_out_args := 0,
        args := args, trace := tr }

/-- What a call of `peas_method_apply_valist` leaves behind: the returned
`gboolean`, the cursor, caller memory and the trace. -/
structure ApplyResult where
  ret : Bool
  args : va_list
  mem : Memory
  trace : List Event

/-- The events after the label `out`. -/
def cleanup : List Event :=
  [Event.release Resource.in_args, Event.release Resource.out_args,
   Event.release Resource.retval_info, Event.release Resource.func_info]

/-- The function `peas_method_apply_valist`. -/
def peas_method_apply_valist (lib : Collaborators) (inst : gpointer) (iface_type : GType)
    (method_name : String) (args : va_list) (mem : Memory) : Run ApplyResult :=
  match peas_method_get_info lib iface_type method_name with
  | (none, tr) => .ok { ret := false, args := args, mem := mem, trace := tr }
  | (some func_info, tr) =>
    match marshal lib.gdouble_to_gfloat inst func_info args tr with
    | .error e => .error e
    | .ok st =>
      if st.ret = false then
        .ok { ret := false, args := st.args, mem := mem, trace := st.trace ++ cleanup }
      else
        match lib.g_function_info_invoke func_info st.in_args st.n_in_args st.out_args
            st.n_out_args mem with
        | (false, _, mem1) =>
          .ok { ret := false, args := st.args, mem := mem1,
                trace := st.trace ++ [Event.invoke st.in_args st.n_in_args st.out_args
                  st.n_out_args false] ++ cleanup }
        | (true, out_retval, mem1) =>
          let tr1 := st.trace ++ [Event.invoke st.in_args st.n_in_args st.out_args
            st.n_out_args true]
          if func_info.return_type.tag ≠ GI_TYPE_TAG_VOID then
            match va_arg_gpointer st.args with
            | .error e => .error (e, tr1)
            | .ok (in_retval, args1) =>
              match set_return_value in_retval out_retval func_info.return_type.tag mem1 with
              | (ret, mem2) =>
                .ok { ret := ret, args := args1, mem := mem2,
                      trace := tr1 ++ [Event.set_return_value in_retval] ++ cleanup }
          else
            .ok { ret := true, args := st.args, mem := mem1, trace := tr1 ++ cleanup }

/-- The trace of a run, also when it reached undefined behaviour. -/
def run_trace : Run ApplyResult → List Event
  | .ok r => r.trace
  | .error (_, tr) => tr

/-- The invoker calls recorded in a trace: both arrays and both counts. -/
def invocations : List Event → List (List GArgument × Nat × List GArgument × Nat)
  | [] => []
  | Event.invoke a n b m _ :: rest => (a, n, b, m) :: invocations rest
  | _ :: rest => invocations rest

/-- The destinations of the `set_return_value` calls recorded in a trace. -/
def encode_calls : List Event → List gpointer
  | [] => []
  | Event.set_return_value p :: rest => p :: encode_calls rest
  | _ :: rest => encode_calls rest

/-! ## Reference notions used by the statements -/

/-- A tag for which the two switches have a case. -/
def recognised : GITypeTag → Bool
  | GITypeTag.OTHER _ => false
  | _ => true

/-- The tags of the round-trip law: boolean, the eight integer tags, GType, the
two string tags and the six opaque-reference tags. -/
def roundtrip_tag : GITypeTag → Bool
  | GI_TYPE_TAG_BOOLEAN | GI_TYPE_TAG_INT8 | GI_TYPE_TAG_UINT8 | GI_TYPE_TAG_INT16
  | GI_TYPE_TAG_UINT16 | GI_TYPE_TAG_INT32 | GI_TYPE_TAG_UINT32 | GI_TYPE_TAG_INT64
  | GI_TYPE_TAG_UINT64 | GI_TYPE_TAG_GTYPE | GI_TYPE_TAG_UTF8 | GI_TYPE_TAG_FILENAME
  | GI_TYPE_TAG_ARRAY | GI_TYPE_TAG_INTERFACE | GI_TYPE_TAG_GLIST | GI_TYPE_TAG_GSLIST
  | GI_TYPE_TAG_GHASH | GI_TYPE_TAG_ERROR => true
  | _ => false

/-- The native value `v` has the C type that belongs to the tag and lies in the
range of that type. -/
def representable : GITypeTag → CValue → Bool
  | GI_TYPE_TAG_BOOLEAN, CValue.gboolean v => decide (-2147483648 ≤ v ∧ v ≤ 2147483647)
  | GI_TYPE_TAG_INT8, CValue.gint8 v => decide (-128 ≤ v ∧ v ≤ 127)
  | GI_TYPE_TAG_UINT8, CValue.guint8 v => decide (0 ≤ v ∧ v ≤ 255)
  | GI_TYPE_TAG_INT16, CValue.gint16 v => decide (-32768 ≤ v ∧ v ≤ 32767)
  | GI_TYPE_TAG_UINT16, CValue.guint16 v => decide (0 ≤ v ∧ v ≤ 65535)
  | GI_TYPE_TAG_INT32, CValue.gint32 v => decide (-2147483648 ≤ v ∧ v ≤ 2147483647)
  | GI_TYPE_TAG_UINT32, CValue.guint32 v => decide (0 ≤ v ∧ v ≤ 4294967295)
  | GI_TYPE_TAG_INT64, CValue.gint64 v =>
    decide (-9223372036854775808 ≤ v ∧ v ≤ 9223372036854775807)
  | GI_TYPE_TAG_UINT64, CValue.guint64 v => decide (0 ≤ v ∧ v ≤ 18446744073709551615)
  | GI_TYPE_TAG_DOUBLE, CValue.gdouble _ => true
  | GI_TYPE_TAG_FLOAT, CValue.gfloat _ => true
  | GI_TYPE_TAG_GTYPE, CValue.gsize v => decide (0 ≤ v ∧ v ≤ 18446744073709551615)
  | GI_TYPE_TAG_UTF8, CValue.pointer _ => true
  | GI_TYPE_TAG_FILENAME, CValue.pointer _ => true
  | GI_TYPE_TAG_ARRAY, CValue.pointer _ => true
  | GI_TYPE_TAG_INTERFACE, CValue.pointer _ => true
  | GI_TYPE_TAG_GLIST, CValue.pointer _ => true
  | GI_TYPE_TAG_GSLIST, CValue.pointer _ => true
  | GI_TYPE_TAG_GHASH, CValue.pointer _ => true
  | GI_TYPE_TAG_ERROR, CValue.pointer _ => true
  | _, _ => false

/-- The default argument promotions of C: the slot a native value occupies when
it is passed through an ellipsis.  A `gfloat` is widened to `gdouble`, which
needs a floating point model; it has no slot here. -/
def promote : CValue → Option VaSlot
  | CValue.gboolean v => some (VaSlot.int v)
  | CValue.gint8 v => some (VaSlot.int v)
  | CValue.guint8 v => some (VaSlot.int v)
  | CValue.gint16 v => some (VaSlot.int v)
  | CValue.guint16 v => some (VaSlot.int v)
  | CValue.gint32 v => some (VaSlot.int v)
  | CValue.guint32 v => some (VaSlot.int v)
  | CValue.gint64 v => some (VaSlot.word64 v)
  | CValue.guint64 v => some (VaSlot.word64 v)
  | CValue.gsize v => some (VaSlot.word64 v)
  | CValue.gdouble v => some (VaSlot.double v)
  | CValue.gfloat _ => none
  | CValue.pointer p => some (VaSlot.pointer p)

/-- The member of a `GArgument` that a tag selects, as a native value. -/
def selected_field : GITypeTag → GArgument → Option CValue
  | GI_TYPE_TAG_VOID, r => some (CValue.gboolean r.v_boolean)
  | GI_TYPE_TAG_BOOLEAN, r => some (CValue.gboolean r.v_boolean)
  | GI_TYPE_TAG_INT8, r => some (CValue.gint8 r.v_int8)
  | GI_TYPE_TAG_UINT8, r => some (CValue.guint8 r.v_uint8)
  | GI_TYPE_TAG_INT16, r => some (CValue.gint16 r.v_int16)
  | GI_TYPE_TAG_UINT16, r => some (CValue.guint16 r.v_uint16)
  | GI_TYPE_TAG_INT32, r => some (CValue.gint32 r.v_int32)
  | GI_TYPE_TAG_UINT32, r => some (CValue.guint32 r.v_uint32)
  | GI_TYPE_TAG_INT64, r => some (CValue.gint64 r.v_int64)
  | GI_TYPE_TAG_UINT64, r => some (CValue.guint64 r.v_uint64)
  | GI_TYPE_TAG_FLOAT, r => some (CValue.gfloat r.v_float)
  | GI_TYPE_TAG_DOUBLE, r => some (CValue.gdouble r.v_double)
  | GI_TYPE_TAG_GTYPE, r => some (CValue.gsize r.v_size)
  | GI_TYPE_TAG_UTF8, r => some (CValue.pointer r.v_string)
  | GI_TYPE_TAG_FILENAME, r => some (CValue.pointer r.v_string)
  | GI_TYPE_TAG_ARRAY, r => some (CValue.pointer r.v_pointer)
  | GI_TYPE_TAG_INTERFACE, r => some (CValue.pointer r.v_pointer)
  | GI_TYPE_TAG_GLIST, r => some (CValue.pointer r.v_pointer)
  | GI_TYPE_TAG_GSLIST, r => some (CValue.pointer r.v_pointer)
  | GI_TYPE_TAG_GHASH, r => some (CValue.pointer r.v_pointer)
  | GI_TYPE_TAG_ERROR, r => some (CValue.pointer r.v_pointer)
  | GITypeTag.OTHER _, _ => none

/-- The tag reads a slot of the size class of `s`. -/
def tag_fits_slot : GITypeTag → VaSlot → Bool
  | GI_TYPE_TAG_VOID, VaSlot.int _ => true
  | GI_TYPE_TAG_BOOLEAN, VaSlot.int _ => true
  | GI_TYPE_TAG_INT8, VaSlot.int _ => true
  | GI_TYPE_TAG_UINT8, VaSlot.int _ => true
  | GI_TYPE_TAG_INT16, VaSlot.int _ => true
  | GI_TYPE_TAG_UINT16, VaSlot.int _ => true
  | GI_TYPE_TAG_INT32, VaSlot.int _ => true
  | GI_TYPE_TAG_UINT32, VaSlot.int _ => true
  | GI_TYPE_TAG_INT64, VaSlot.word64 _ => true
  | GI_TYPE_TAG_UINT64, VaSlot.word64 _ => true
  | GI_TYPE_TAG_FLOAT, VaSlot.double _ => true
  | GI_TYPE_TAG_DOUBLE, VaSlot.double _ => true
  | GI_TYPE_TAG_GTYPE, VaSlot.word64 _ => true
  | GI_TYPE_TAG_UTF8, VaSlot.pointer _ => true
  | GI_TYPE_TAG_FILENAME, VaSlot.pointer _ => true
  | GI_TYPE_TAG_ARRAY, VaSlot.pointer _ => true
  | GI_TYPE_TAG_INTERFACE, VaSlot.pointer _ => true
  | GI_TYPE_TAG_GLIST, VaSlot.pointer _ => true
  | GI_TYPE_TAG_GSLIST, VaSlot.pointer _ => true
  | GI_TYPE_TAG_GHASH, VaSlot.pointer _ => true
  | GI_TYPE_TAG_ERROR, VaSlot.pointer _ => true
  | _, _ => false

/-- The slot is one the caller may pass for the parameter: of the size class of
the tag for an IN parameter, a pointer for an OUT or INOUT parameter. -/
def slot_fits (p : GIArgInfo) (s : VaSlot) : Bool :=
  match p.direction, s with
  | GI_DIRECTION_IN, s => tag_fits_slot p.type_info.tag s
  | _, VaSlot.pointer _ => true
  | _, _ => false

/-- The variadic sequence has a slot for every declared parameter, each of the
size class the parameter needs; more slots may follow. -/
def va_matches : List GIArgInfo → va_list → Bool
  | [], _ => true
  | _ :: _, [] => false
  | p :: ps, s :: ss => slot_fits p s && va_matches ps ss

/-- No parameter has the direction IN. -/
def no_in_parameter (params : List GIArgInfo) : Bool :=
  params.all fun p => p.direction != GI_DIRECTION_IN

/-- Every IN parameter carries a recognised tag. -/
def in_tags_recognised (params : List GIArgInfo) : Bool :=
  params.all fun p => p.direction != GI_DIRECTION_IN || recognised p.type_info.tag

/-- The parameter is IN or INOUT. -/
def is_input (p : GIArgInfo) : Bool := p.direction != GI_DIRECTION_OUT

/-- The parameter is OUT or INOUT. -/
def is_output (p : GIArgInfo) : Bool := p.direction != GI_DIRECTION_IN

/-- The `GArgument` whose only non-zero member is the pointer `p`. -/
def pointer_argument (p : gpointer) : GArgument := { GArgument.zero with v_pointer := p }

/-- Reference definition, input side: what parameter `p` with slot `s`
contributes to the input array.  An IN parameter contributes the decoded value
of the slot, an INOUT parameter the pointer in the slot, an OUT parameter nothing. -/
def in_entry (narrow : gdouble → gfloat) (ps : GIArgInfo × VaSlot) : Option GArgument :=
  match ps.1.direction with
  | GI_DIRECTION_IN =>
    match read_next_argument narrow GArgument.zero [ps.2] ps.1.type_info.tag with
    | .ok (true, g, _) => some g
    | _ => none
  | GI_DIRECTION_INOUT =>
    match ps.2 with
    | VaSlot.pointer q => some (pointer_argument q)
    | _ => none
  | GI_DIRECTION_OUT => none

/-- Reference definition, output side: what parameter `p` with slot `s`
contributes to the output array.  An OUT or INOUT parameter contributes the
pointer in the slot, an IN parameter nothing. -/
def out_entry (ps : GIArgInfo × VaSlot) : Option GArgument :=
  match ps.1.direction, ps.2 with
  | GI_DIRECTION_IN, _ => none
  | _, VaSlot.pointer q => some (pointer_argument q)
  | _, _ => none

/-- Reference definition of the filled input array: the instance, then the
contributions of the parameters in declaration order. -/
def reference_in_args (narrow : gdouble → gfloat) (inst : gpointer)
    (params : List GIArgInfo) (slots : va_list) : List GArgument :=
  pointer_argument inst :: (List.zip params slots).filterMap (in_entry narrow)

/-- Reference definition of the filled output array. -/
def reference_out_args (params : List GIArgInfo) (slots : va_list) : List GArgument :=
  (List.zip params slots).filterMap out_entry

/-- The events of `k` complete iterations of the marshaling loop from index `i`. -/
def loop_events : Nat → Nat → List Event
  | _, 0 => []
  | i, k + 1 =>
    [Event.acquire (Resource.arg_info i), Event.acquire (Resource.arg_type_info i),
     Event.release (Resource.arg_type_info i), Event.release (Resource.arg_info i)]
      ++ loop_events (i + 1) k

/-- The names of the members of the `GArgument` union. -/
inductive GField where
  | v_boolean
  | v_int8
  | v_uint8
  | v_int16
  | v_uint16
  | v_int32
  | v_uint32
  | v_int64
  | v_uint64
  | v_float
  | v_double
  | v_size
  | v_string
  | v_pointer
  deriving DecidableEq, Repr

/-- The `GArgument` `dst` with the member `f` taken from `src`. -/
def GArgument.with_member (f : GField) (src dst : GArgument) : GArgument :=
  match f with
  | GField.v_boolean => { dst with v_boolean := src.v_boolean }
  | GField.v_int8 => { dst with v_int8 := src.v_int8 }
  | GField.v_uint8 => { dst with v_uint8 := src.v_uint8 }
  | GField.v_int16 => { dst with v_int16 := src.v_int16 }
  | GField.v_uint16 => { dst with v_uint16 := src.v_uint16 }
  | GField.v_int32 => { dst with v_int32 := src.v_int32 }
  | GField.v_uint32 => { dst with v_uint32 := src.v_uint32 }
  | GField.v_int64 => { dst with v_int64 := src.v_int64 }
  | GField.v_uint64 => { dst with v_uint64 := src.v_uint64 }
  | GField.v_float => { dst with v_float := src.v_float }
  | GField.v_double => { dst with v_double := src.v_double }
  | GField.v_size => { dst with v_size := src.v_size }
  | GField.v_string => { dst with v_string := src.v_string }
  | GField.v_pointer => { dst with v_pointer := src.v_pointer }

/-- The member that belongs to a tag: the single table to which both switches
are compared. -/
def member_of_tag : GITypeTag → Option GField
  | GI_TYPE_TAG_VOID => some GField.v_boolean
  | GI_TYPE_TAG_BOOLEAN => some GField.v_boolean
  | GI_TYPE_TAG_INT8 => some GField.v_int8
  | GI_TYPE_TAG_UINT8 => some GField.v_uint8
  | GI_TYPE_TAG_INT16 => some GField.v_int16
  | GI_TYPE_TAG_UINT16 => some GField.v_uint16
  | GI_TYPE_TAG_INT32 => some GField.v_int32
  | GI_TYPE_TAG_UINT32 => some GField.v_uint32
  | GI_TYPE_TAG_INT64 => some GField.v_int64
  | GI_TYPE_TAG_UINT64 => some GField.v_uint64
  | GI_TYPE_TAG_FLOAT => some GField.v_float
  | GI_TYPE_TAG_DOUBLE => some GField.v_double
  | GI_TYPE_TAG_GTYPE => some GField.v_size
  | GI_TYPE_TAG_UTF8 => some GField.v_string
  | GI_TYPE_TAG_FILENAME => some GField.v_string
  | GI_TYPE_TAG_ARRAY => some GField.v_pointer
  | GI_TYPE_TAG_INTERFACE => some GField.v_pointer
  | GI_TYPE_TAG_GLIST => some GField.v_pointer
  | GI_TYPE_TAG_GSLIST => some GField.v_pointer
  | GI_TYPE_TAG_GHASH => some GField.v_pointer
  | GI_TYPE_TAG_ERROR => some GField.v_pointer
  | GITypeTag.OTHER _ => none

/-- The member `f` of a `GArgument`, as a native value of the C type of the
member. -/
def GArgument.member (f : GField) (a : GArgument) : CValue :=
  match f with
  | GField.v_boolean => CValue.gboolean a.v_boolean
  | GField.v_int8 => CValue.gint8 a.v_int8
  | GField.v_uint8 => CValue.guint8 a.v_uint8
  | GField.v_int16 => CValue.gint16 a.v_int16
  | GField.v_uint16 => CValue.guint16 a.v_uint16
  | GField.v_int32 => CValue.gint32 a.v_int32
  | GField.v_uint32 => CValue.guint32 a.v_uint32
  | GField.v_int64 => CValue.gint64 a.v_int64
  | GField.v_uint64 => CValue.guint64 a.v_uint64
  | GField.v_float => CValue.gfloat a.v_float
  | GField.v_double => CValue.gdouble a.v_double
  | GField.v_size => CValue.gsize a.v_size
  | GField.v_string => CValue.pointer a.v_string
  | GField.v_pointer => CValue.pointer a.v_pointer

/-- The value `x` modulo `2^w`. -/
def reduce_to_width (w : Nat) (x : Int) : Int := x % 2 ^ w

/-- The `w`-bit pattern `u`, with `0 ≤ u < 2^w`, read as a signed integer. -/
def as_signed (w : Nat) (u : Int) : Int := if u < 2 ^ (w - 1) then u else u - 2 ^ w

/-- The 32-bit integer value of an int-sized slot with payload `v`. -/
def slot_int32 (v : Int) : Int := as_signed 32 (reduce_to_width 32 v)

/-- Reference definition of decoding by promoted width.  Boolean and the 8 and
16 bit integer tags read an int-sized slot and keep its 32-bit value reduced to
the width of the tag, read as signed for the signed tags; the 32 bit tags read
an int-sized slot; the 64 bit tags and GType read a 64-bit slot; float and
double read a double-sized slot; the string and opaque-reference tags read a
pointer-sized slot and keep the pointer unchanged.  Any other slot for the tag
has no decoding. -/
def promoted_decode (narrow : gdouble → gfloat) (tag : GITypeTag) (s : VaSlot)
    (cur : GArgument) : Option GArgument :=
  match tag, s with
  | GI_TYPE_TAG_VOID, VaSlot.int v => some { cur with v_boolean := slot_int32 v }
  | GI_TYPE_TAG_BOOLEAN, VaSlot.int v => some { cur with v_boolean := slot_int32 v }
  | GI_TYPE_TAG_INT8, VaSlot.int v =>
    some { cur with v_int8 := as_signed 8 (reduce_to_width 8 (slot_int32 v)) }
  | GI_TYPE_TAG_UINT8, VaSlot.int v =>
    some { cur with v_uint8 := reduce_to_width 8 (slot_int32 v) }
  | GI_TYPE_TAG_INT16, VaSlot.int v =>
    some { cur with v_int16 := as_signed 16 (reduce_to_width 16 (slot_int32 v)) }
  | GI_TYPE_TAG_UINT16, VaSlot.int v =>
    some { cur with v_uint16 := reduce_to_width 16 (slot_int32 v) }
  | GI_TYPE_TAG_INT32, VaSlot.int v => some { cur with v_int32 := slot_int32 v }
  | GI_TYPE_TAG_UINT32, VaSlot.int v => some { cur with v_uint32 := reduce_to_width 32 v }
  | GI_TYPE_TAG_INT64, VaSlot.word64 v =>
    some { cur with v_int64 := as_signed 64 (reduce_to_width 64 v) }
  | GI_TYPE_TAG_UINT64, VaSlot.word64 v => some { cur with v_uint64 := reduce_to_width 64 v }
  | GI_TYPE_TAG_FLOAT, VaSlot.double v => some { cur with v_float := narrow v }
  | GI_TYPE_TAG_DOUBLE, VaSlot.double v => some { cur with v_double := v }
  | GI_TYPE_TAG_GTYPE, VaSlot.word64 v => some { cur with v_size := reduce_to_width 64 v }
  | GI_TYPE_TAG_UTF8, VaSlot.pointer p => some { cur with v_string := p }
  | GI_TYPE_TAG_FILENAME, VaSlot.pointer p => some { cur with v_string := p }
  | GI_TYPE_TAG_ARRAY, VaSlot.pointer p => some { cur with v_pointer := p }
  | GI_TYPE_TAG_INTERFACE, VaSlot.pointer p => some { cur with v_pointer := p }
  | GI_TYPE_TAG_GLIST, VaSlot.pointer p => some { cur with v_pointer := p }
  | GI_TYPE_TAG_GSLIST, VaSlot.pointer p => some { cur with v_pointer := p }
  | GI_TYPE_TAG_GHASH, VaSlot.pointer p => some { cur with v_pointer := p }
  | GI_TYPE_TAG_ERROR, VaSlot.pointer p => some { cur with v_pointer := p }
  | _, _ => none

/-- Boolean and the 8 and 16 bit integer tags. -/
def small_int_tag : GITypeTag → Bool
  | GI_TYPE_TAG_BOOLEAN | GI_TYPE_TAG_INT8 | GI_TYPE_TAG_UINT8 | GI_TYPE_TAG_INT16
  | GI_TYPE_TAG_UINT16 => true
  | _ => false

/-- The tags float and double. -/
def floating_tag : GITypeTag → Bool
  | GI_TYPE_TAG_FLOAT | GI_TYPE_TAG_DOUBLE => true
  | _ => false

/-- The opaque-reference tags: array, interface, glist, gslist, ghash, error. -/
def opaque_tag : GITypeTag → Bool
  | GI_TYPE_TAG_ARRAY | GI_TYPE_TAG_INTERFACE | GI_TYPE_TAG_GLIST | GI_TYPE_TAG_GSLIST
  | GI_TYPE_TAG_GHASH | GI_TYPE_TAG_ERROR => true
  | _ => false

/-- The descriptor and the variadic sequence keep the marshaling loop inside
defined behaviour: every OUT or INOUT parameter before the first IN parameter
finds a pointer slot, and the first IN parameter, if there is one, carries an
unrecognised tag, so that the loop stops there without a `va_arg`. -/
def va_defined : List GIArgInfo → va_list → Bool
  | [], _ => true
  | p :: ps, slots =>
    if p.direction = GI_DIRECTION_IN then !recognised p.type_info.tag
    else
      match slots with
      | [] => false
      | s :: ss => slot_fits p s && va_defined ps ss

/-- Bookkeeping of resources along a trace, from the resources `held`: an
acquisition adds the resource, a release removes it and is an error (`none`)
when the resource is not held.  The result is what is held at the end. -/
def track : List Resource → List Event → Option (List Resource)
  | held, [] => some held
  | held, Event.acquire r :: rest => track (r :: held) rest
  | held, Event.release r :: rest => if r ∈ held then track (held.erase r) rest else none
  | held, _ :: rest => track held rest

/-- Memory in which nothing has been stored. -/
def empty_memory : Memory := fun _ => none

/-- An invoker that succeeds, returns `v_int64 = 7` and stores the `gdouble`
3.14 (bit pattern `0x40091EB851EB851F`) through the first output pointer. -/
def scenario_invoke (_ : GICallableInfo) (_ : List GArgument) (_ : Nat)
    (out_args : List GArgument) (_ : Nat) (mem : Memory) : Bool × GArgument × Memory :=
  (true, { GArgument.zero with v_int64 := 7 },
    mem.store (out_args.getD 0 GArgument.zero).v_pointer (CValue.gdouble ⟨4614253070214989087⟩))

/-- An invoker that reports failure and stores nothing. -/
def failing_invoke (_ : GICallableInfo) (_ : List GArgument) (_ : Nat)
    (_ : List GArgument) (_ : Nat) (mem : Memory) : Bool × GArgument × Memory :=
  (false, GArgument.zero, mem)

/-- A registry with one interface type, `100`, whose only method is `compute`
with descriptor `fi`. -/
def registry_with (fi : GICallableInfo)
    (invoke : GICallableInfo → List GArgument → Nat → List GArgument → Nat → Memory →
      Bool × GArgument × Memory) : Collaborators where
  g_irepository_find_by_gtype := fun t =>
    if t = 100 then some { handle := 1, info_type := GI_INFO_TYPE_INTERFACE } else none
  g_object_info_find_method := fun _ _ => none
  g_interface_info_find_method := fun _ name => if name = "compute" then some fi else none
  g_function_info_invoke := invoke
  gdouble_to_gfloat := fun _ => ⟨0⟩

/-- The method of the scenario: `(IN int32, OUT double)` returning `int64`. -/
def scenario_info : GICallableInfo where
  args := [{ direction := GI_DIRECTION_IN, type_info := { tag := GI_TYPE_TAG_INT32 } },
           { direction := GI_DIRECTION_OUT, type_info := { tag := GI_TYPE_TAG_DOUBLE } }]
  return_type := { tag := GI_TYPE_TAG_INT64 }

/-- The variadic sequence of the scenario: `42`, the address `1000` of
`outDouble`, the address `2000` of `outInt64`. -/
def scenario_args : va_list := [VaSlot.int 42, VaSlot.pointer 1000, VaSlot.pointer 2000]

/-- A method whose first parameter is an IN parameter with an unrecognised tag,
followed by an OUT parameter; it returns void. -/
def undecodable_info : GICallableInfo where
  args := [{ direction := GI_DIRECTION_IN, type_info := { tag := GITypeTag.OTHER 99 } },
           { direction := GI_DIRECTION_OUT, type_info := { tag := GI_TYPE_TAG_DOUBLE } }]
  return_type := { tag := GI_TYPE_TAG_VOID }

/-- A method `(INOUT int32)` returning void. -/
def void_info : GICallableInfo where
  args := [{ direction := GI_DIRECTION_INOUT, type_info := { tag := GI_TYPE_TAG_INT32 } }]
  return_type := { tag := GI_TYPE_TAG_VOID }

/-- A method `(OUT double)` returning `int64`. -/
def out_only_info : GICallableInfo where
  args := [{ direction := GI_DIRECTION_OUT, type_info := { tag := GI_TYPE_TAG_DOUBLE } }]
  return_type := { tag := GI_TYPE_TAG_INT64 }

/-- A variadic sequence for `out_only_info`: the address `1000` of `outDouble`
and the address `2000` of `outInt64`. -/
def out_only_args : va_list := [VaSlot.pointer 1000, VaSlot.pointer 2000]

/-- A method without parameters that returns void. -/
def no_args_info : GICallableInfo where
  args := []
  return_type := { tag := GI_TYPE_TAG_VOID }

/-- A method `(IN int32, IN unrecognised, OUT double)` returning `int64`. -/
def late_failure_info : GICallableInfo where
  args := [{ direction := GI_DIRECTION_IN, type_info := { tag := GI_TYPE_TAG_INT32 } },
           { direction := GI_DIRECTION_IN, type_info := { tag := GITypeTag.OTHER 99 } },
           { direction := GI_DIRECTION_OUT, type_info := { tag := GI_TYPE_TAG_DOUBLE } }]
  return_type := { tag := GI_TYPE_TAG_INT64 }

/-- A registry whose type `100` has the structural category `c`; the object
lookup knows `compute` as the scenario method, the interface lookup knows
`compute` as the method `(INOUT int32)`. -/
def category_registry (c : GIInfoType) : Collaborators where
  g_irepository_find_by_gtype := fun t =>
    if t = 100 then some { handle := 1, info_type := c } else none
  g_object_info_find_method := fun _ name =>
    if name = "compute" then some scenario_info else none
  g_interface_info_find_method := fun _ name =>
    if name = "compute" then some void_info else none
  g_function_info_invoke := scenario_invoke
  gdouble_to_gfloat := fun _ => ⟨0⟩

/-! ## Theorems -/

/-- A value in the range of `gint32` is unchanged by the conversion to it. -/
theorem to_gint32_of_range (v : Int) (h : -2147483648 ≤ v ∧ v ≤ 2147483647) :
    to_gint32 v = v := by
  unfold to_gint32; omega

/-- A value in the range of `guint32` is unchanged by the conversion to it. -/
theorem to_guint32_of_range (v : Int) (h : 0 ≤ v ∧ v ≤ 4294967295) :
    to_guint32 v = v := by
  unfold to_guint32; omega

/-- A value in the range of `gint8`, read as a `gint`, is unchanged by the
conversion to `gint8`. -/
theorem to_gint8_of_range (v : Int) (h : -128 ≤ v ∧ v ≤ 127) :
    to_gint8 (to_gint32 v) = v := by
  unfold to_gint8 to_gint32; omega

/-- A value in the range of `guint8`, read as a `gint`, is unchanged by the
conversion to `guint8`. -/
theorem to_guint8_of_range (v : Int) (h : 0 ≤ v ∧ v ≤ 255) :
    to_guint8 (to_gint32 v) = v := by
  unfold to_guint8 to_gint32; omega

/-- A value in the range of `gint16`, read as a `gint`, is unchanged by the
conversion to `gint16`. -/
theorem to_gint16_of_range (v : Int) (h : -32768 ≤ v ∧ v ≤ 32767) :
    to_gint16 (to_gint32 v) = v := by
  unfold to_gint16 to_gint32; omega

/-- A value in the range of `guint16`, read as a `gint`, is unchanged by the
conversion to `guint16`. -/
theorem to_guint16_of_range (v : Int) (h : 0 ≤ v ∧ v ≤ 65535) :
    to_guint16 (to_gint32 v) = v := by
  unfold to_guint16 to_gint32; omega

/-- A value in the range of `gint64` is unchanged by the conversion to it. -/
theorem to_gint64_of_range (v : Int)
    (h : -9223372036854775808 ≤ v ∧ v ≤ 9223372036854775807) : to_gint64 v = v := by
  unfold to_gint64; omega

/-- A value in the range of `guint64` is unchanged by the conversion to it. -/
theorem to_guint64_of_range (v : Int) (h : 0 ≤ v ∧ v ≤ 18446744073709551615) :
    to_guint64 v = v := by
  unfold to_guint64; omega

/-- C1. Round trip of the codec: for every tag of the round-trip law and every
native value `v` representable in it, `read_next_argument` on a cursor whose
next slot is the promoted `v` succeeds and consumes that slot, and
`set_return_value` under the same tag, on the decoded `GArgument` and a
non-null destination `d`, succeeds and leaves memory equal to the old memory
with exactly `v` stored at `d`.  For string and opaque-reference tags `v` is the
reference itself. -/
theorem codec_round_trip (narrow : gdouble → gfloat) (tag : GITypeTag) (v : CValue)
    (s : VaSlot) (cur_arg : GArgument) (rest : va_list) (d : gpointer) (mem : Memory)
    (htag : roundtrip_tag tag = true) (hv : representable tag v = true)
    (hs : promote v = some s) (hd : d ≠ 0) :
    ∃ arg : GArgument,
      read_next_argument narrow cur_arg (s :: rest) tag = .ok (true, arg, rest) ∧
      set_return_value d arg tag mem = (true, mem.store d v) := by
  cases tag <;> cases v <;>
    simp [roundtrip_tag, representable, promote] at htag hv hs <;>
    subst hs <;>
    simp [read_next_argument, set_return_value, va_arg_int, va_arg_word64, va_arg_gpointer, hd] <;>
    first
      | rw [to_gint32_of_range _ hv]
      | rw [to_gint8_of_range _ hv]
      | rw [to_guint8_of_range _ hv]
      | rw [to_gint16_of_range _ hv]
      | rw [to_guint16_of_range _ hv]
      | rw [to_guint32_of_range _ hv]
      | rw [to_gint64_of_range _ hv]
      | rw [to_guint64_of_range _ hv]

/-- Witness of `codec_round_trip`: the `gint8` value `-5` under `GI_TYPE_TAG_INT8`. -/
theorem codec_round_trip_witness :
    ∃ arg : GArgument,
      read_next_argument (fun _ => ⟨0⟩) GArgument.zero [VaSlot.int (-5)] GI_TYPE_TAG_INT8
        = .ok (true, arg, []) ∧
      set_return_value 16 arg GI_TYPE_TAG_INT8 (fun _ => none)
        = (true, Memory.store (fun _ => none) 16 (CValue.gint8 (-5))) :=
  codec_round_trip (fun _ => ⟨0⟩) GI_TYPE_TAG_INT8 (CValue.gint8 (-5)) (VaSlot.int (-5))
    GArgument.zero [] 16 (fun _ => none) (by decide) (by decide) (by decide) (by decide)

/-! ### The marshaling loop -/

theorem array_write_append (oob : UB) (pre : List GArgument) (a : Nat)
    (f : GArgument → GArgument) (tr : List Event) :
    array_write oob (pre ++ List.replicate (a + 1) GArgument.zero) pre.length f tr
      = .ok (pre ++ f GArgument.zero :: List.replicate a GArgument.zero) := by
  simp [array_write, List.replicate_succ]
  rw [List.getElem_append_right (by simp)]
  simp

theorem getD_append_replicate (pre : List GArgument) (a : Nat) :
    (pre ++ List.replicate a GArgument.zero).getD pre.length GArgument.zero
      = GArgument.zero := by
  induction pre with
  | nil => cases a <;> simp [List.replicate_succ]
  | cons x xs ih => simpa using ih

/-- A slot of the size class of a tag is decoded, and the decoded value does
not depend on the slots that follow. -/
theorem read_next_argument_fits (narrow : gdouble → gfloat) (tag : GITypeTag) (s : VaSlot)
    (h : tag_fits_slot tag s = true) :
    ∃ g, ∀ rest, read_next_argument narrow GArgument.zero (s :: rest) tag
      = .ok (true, g, rest) := by
  cases tag <;> cases s <;> simp [tag_fits_slot] at h <;>
    exact ⟨_, fun rest => rfl⟩

/-- The loop on a descriptor without IN parameter and a fitting variadic
sequence: every parameter is processed, the arrays are filled with the
reference entries, and one slot per parameter is consumed. -/
theorem marshal_loop_spec (narrow : gdouble → gfloat) :
    ∀ (params : List GIArgInfo) (slots : va_list) (i : Nat)
      (pre_in pre_out : List GArgument) (a b : Nat) (tr : List Event),
      no_in_parameter params = true → va_matches params slots = true →
      params.length ≤ a → params.length ≤ b →
      marshal_loop narrow i params
        { ret := true, in_args := pre_in ++ List.replicate a GArgument.zero,
          n_in_args := pre_in.length,
          out_args := pre_out ++ List.replicate b GArgument.zero,
          n_out_args := pre_out.length, args := slots, trace := tr }
      = .ok
        { ret := true,
          in_args := pre_in ++ (List.zip params slots).filterMap (in_entry narrow) ++
            List.replicate (a - ((List.zip params slots).filterMap (in_entry narrow)).length)
              GArgument.zero,
          n_in_args := pre_in.length +
            ((List.zip params slots).filterMap (in_entry narrow)).length,
          out_args := pre_out ++ (List.zip params slots).filterMap out_entry ++
            List.replicate (b - ((List.zip params slots).filterMap out_entry).length)
              GArgument.zero,
          n_out_args := pre_out.length + ((List.zip params slots).filterMap out_entry).length,
          args := slots.drop params.length,
          trace := tr ++ loop_events i params.length } := by
  intro params
  induction params with
  | nil => intro slots i pre_in pre_out a b tr _ _ _ _; simp [marshal_loop, loop_events]
  | cons p ps ih =>
    intro slots i pre_in pre_out a b tr hrec hm ha hb
    cases slots with
    | nil => simp [va_matches] at hm
    | cons s ss =>
      obtain ⟨a, rfl⟩ : ∃ a1, a = a1 + 1 := ⟨a - 1, by simp at ha; omega⟩
      obtain ⟨b, rfl⟩ : ∃ b1, b = b1 + 1 := ⟨b - 1, by simp at hb; omega⟩
      simp only [va_matches, Bool.and_eq_true] at hm
      obtain ⟨hfit, hm⟩ := hm
      simp only [no_in_parameter, List.all_cons, Bool.and_eq_true] at hrec
      obtain ⟨hp, hrec⟩ := hrec
      have hrec1 : no_in_parameter ps = true := hrec
      simp only [List.length_cons, Nat.add_le_add_iff_right] at ha hb
      cases hdir : p.direction with
      | GI_DIRECTION_IN => simp [hdir] at hp
      | GI_DIRECTION_INOUT =>
        cases s with
        | pointer q =>
          have h1 := ih ss (i + 1) (pre_in ++ [pointer_argument q])
            (pre_out ++ [pointer_argument q]) a b (tr ++ loop_events i 1) hrec1 hm ha hb
          simp only [marshal_loop, marshal_arg, hdir, if_true, va_arg_gpointer,
            array_write_append, List.append_assoc, List.cons_append, List.nil_append]
          simp only [List.length_append, List.length_singleton, List.append_assoc,
            List.singleton_append] at h1
          simp only [loop_events, List.append_nil] at h1
          have hz : ({ GArgument.zero with v_pointer := q } : GArgument) = pointer_argument q :=
            rfl
          rw [hz, h1]
          simp [in_entry, out_entry, hdir, loop_events, Nat.add_assoc, Nat.add_comm 1]
        | int v => simp [slot_fits, hdir] at hfit
        | word64 v => simp [slot_fits, hdir] at hfit
        | double v => simp [slot_fits, hdir] at hfit
      | GI_DIRECTION_OUT =>
        cases s with
        | pointer q =>
          have h1 := ih ss (i + 1) pre_in (pre_out ++ [pointer_argument q]) (a + 1) b
            (tr ++ loop_events i 1) hrec1 hm (by omega) hb
          simp only [marshal_loop, marshal_arg, hdir, if_true, va_arg_gpointer,
            array_write_append, List.append_assoc, List.cons_append, List.nil_append]
          simp only [List.length_append, List.length_singleton, List.append_assoc,
            List.singleton_append] at h1
          simp only [loop_events, List.append_nil] at h1
          have hz : ({ GArgument.zero with v_pointer := q } : GArgument) = pointer_argument q :=
            rfl
          rw [hz, h1]
          simp [in_entry, out_entry, hdir, loop_events, Nat.add_assoc, Nat.add_comm 1]
        | int v => simp [slot_fits, hdir] at hfit
        | word64 v => simp [slot_fits, hdir] at hfit
        | double v => simp [slot_fits, hdir] at hfit

/-- What a successful decode tells: the tag is recognised and exactly the next
slot was consumed.  What a failed decode tells: the tag is not recognised and
nothing was consumed or stored. -/
theorem read_next_argument_ok (narrow : gdouble → gfloat) (cur : GArgument)
    (args : va_list) (tag : GITypeTag) (b : Bool) (g : GArgument) (rest : va_list)
    (h : read_next_argument narrow cur args tag = .ok (b, g, rest)) :
    (b = true → recognised tag = true ∧ ∃ s, args = s :: rest) ∧
    (b = false → recognised tag = false ∧ rest = args ∧ g = cur) := by
  cases tag <;> rcases args with _ | ⟨s, ss⟩ <;> try cases s
  all_goals
    simp [read_next_argument, va_arg_int, va_arg_word64, va_arg_gdouble, va_arg_gpointer,
      recognised] at h ⊢
  all_goals
    obtain ⟨rfl, rfl, rfl⟩ := h
    simp

theorem invocations_append (xs ys : List Event) :
    invocations (xs ++ ys) = invocations xs ++ invocations ys := by
  induction xs with
  | nil => rfl
  | cons e es ih => cases e <;> simp [invocations, ih]

theorem encode_calls_append (xs ys : List Event) :
    encode_calls (xs ++ ys) = encode_calls xs ++ encode_calls ys := by
  induction xs with
  | nil => rfl
  | cons e es ih => cases e <;> simp [encode_calls, ih]

theorem invocations_loop_events (i k : Nat) : invocations (loop_events i k) = [] := by
  induction k generalizing i with
  | zero => rfl
  | succ k ih => simp [loop_events, invocations, ih]

theorem encode_calls_loop_events (i k : Nat) : encode_calls (loop_events i k) = [] := by
  induction k generalizing i with
  | zero => rfl
  | succ k ih => simp [loop_events, encode_calls, ih]

theorem loop_events_add (i j k : Nat) :
    loop_events i (j + k) = loop_events i j ++ loop_events (i + j) k := by
  induction j generalizing i with
  | zero => simp [loop_events]
  | succ j ih =>
    have : j + 1 + k = (j + k) + 1 := by omega
    rw [this]
    simp [loop_events, ih, Nat.add_assoc, Nat.add_comm 1]

/-- One iteration that does not reach undefined behaviour records the four
events of its argument; if it leaves `ret` set, its argument is not an IN
argument, it consumed one slot and advanced the counts by the direction of the
argument. -/
theorem marshal_arg_ok (narrow : gdouble → gfloat) (i : Nat) (p : GIArgInfo)
    (st0 st1 : MarshalState) (h : marshal_arg narrow i p st0 = .ok st1) :
    st1.trace = st0.trace ++ loop_events i 1 ∧
    (st1.ret = true →
      st1.n_in_args = st0.n_in_args + (if is_input p then 1 else 0) ∧
      st1.n_out_args = st0.n_out_args + (if is_output p then 1 else 0) ∧
      (∃ s, st0.args = s :: st1.args) ∧
      p.direction ≠ GI_DIRECTION_IN) := by
  unfold marshal_arg at h
  cases hdir : p.direction with
  | GI_DIRECTION_IN =>
    simp only [hdir] at h
    split at h
    · simp only [Except.ok.injEq] at h
      subst h
      simp [loop_events]
    · simp at h
  | GI_DIRECTION_INOUT =>
    simp only [hdir] at h
    rcases hargs : st0.args with _ | ⟨s, ss⟩
    · simp [hargs, va_arg_gpointer] at h
    · cases s <;> simp [hargs, va_arg_gpointer] at h
      split at h
      · simp at h
      · split at h
        · simp at h
        · simp only [Except.ok.injEq] at h
          subst h
          simp [loop_events, is_input, is_output, hdir]
  | GI_DIRECTION_OUT =>
    simp only [hdir] at h
    rcases hargs : st0.args with _ | ⟨s, ss⟩
    · simp [hargs, va_arg_gpointer] at h
    · cases s <;> simp [hargs, va_arg_gpointer] at h
      split at h
      · simp at h
      · simp only [Except.ok.injEq] at h
        subst h
        simp [loop_events, is_input, is_output, hdir]

/-- A loop that does not reach undefined behaviour records the events of the
iterations it ran. -/
theorem marshal_loop_trace (narrow : gdouble → gfloat) :
    ∀ (params : List GIArgInfo) (i : Nat) (st0 st : MarshalState),
      marshal_loop narrow i params st0 = .ok st →
      ∃ k, k ≤ params.length ∧ st.trace = st0.trace ++ loop_events i k := by
  intro params
  induction params with
  | nil =>
    intro i st0 st h
    simp only [marshal_loop, Except.ok.injEq] at h
    subst h
    exact ⟨0, by simp, by simp [loop_events]⟩
  | cons p ps ih =>
    intro i st0 st h
    simp only [marshal_loop] at h
    split at h
    · split at h
      · simp at h
      · next st1 h1 =>
        obtain ⟨k, hk, hkt⟩ := ih (i + 1) st1 st h
        refine ⟨1 + k, by simp; omega, ?_⟩
        rw [hkt, (marshal_arg_ok narrow i p st0 st1 h1).1, loop_events_add, List.append_assoc]
    · simp only [Except.ok.injEq] at h
      subst h
      exact ⟨0, by simp, by simp [loop_events]⟩

/-- A loop that ends with `ret` set processed every declared argument: the
counts advanced by the numbers of input and output parameters, one slot was
consumed per parameter, no parameter was an IN parameter, and the events of all
iterations were recorded. -/
theorem marshal_loop_complete (narrow : gdouble → gfloat) :
    ∀ (params : List GIArgInfo) (i : Nat) (st0 st : MarshalState),
      marshal_loop narrow i params st0 = .ok st → st.ret = true →
      st0.ret = true ∧
      st.n_in_args = st0.n_in_args + params.countP is_input ∧
      st.n_out_args = st0.n_out_args + params.countP is_output ∧
      (∃ consumed, consumed.length = params.length ∧ st0.args = consumed ++ st.args) ∧
      no_in_parameter params = true ∧
      st.trace = st0.trace ++ loop_events i params.length := by
  intro params
  induction params with
  | nil =>
    intro i st0 st h hret
    simp only [marshal_loop, Except.ok.injEq] at h
    subst h
    exact ⟨hret, by simp, by simp, ⟨[], by simp⟩, by simp [no_in_parameter],
      by simp [loop_events]⟩
  | cons p ps ih =>
    intro i st0 st h hret
    simp only [marshal_loop] at h
    split at h
    · next h0 =>
      split at h
      · simp at h
      · next st1 h1 =>
        obtain ⟨hr1, hin, hout, ⟨c, hc, hca⟩, hrec, htr⟩ := ih (i + 1) st1 st h hret
        obtain ⟨ht1, hstep⟩ := marshal_arg_ok narrow i p st0 st1 h1
        obtain ⟨hin1, hout1, ⟨s, hs⟩, hp⟩ := hstep hr1
        refine ⟨h0, ?_, ?_, ⟨s :: c, by simp [hc], by simp [hs, hca]⟩, ?_, ?_⟩
        · rw [hin, hin1, List.countP_cons]; omega
        · rw [hout, hout1, List.countP_cons]; omega
        · simp only [no_in_parameter, List.all_cons, Bool.and_eq_true]
          exact ⟨by simpa using hp, hrec⟩
        · rw [htr, ht1, List.length_cons, Nat.add_comm ps.length 1, loop_events_add,
            List.append_assoc]
    · next h0 =>
      simp only [Except.ok.injEq] at h
      subst h
      exact absurd hret h0

/-! ### The marshaling phase -/

theorem array_write_instance (n : Nat) (inst : gpointer) (tr : List Event) :
    array_write UB.in_args_out_of_bounds (List.replicate (n + 1) GArgument.zero) 0
        (fun a => { a with v_pointer := inst }) tr
      = .ok (pointer_argument inst :: List.replicate n GArgument.zero) := by
  have h := array_write_append UB.in_args_out_of_bounds [] n
    (fun a => { a with v_pointer := inst }) tr
  simpa [pointer_argument] using h

/-- The marshaling phase on a descriptor without IN parameter and a fitting
variadic sequence yields the reference arrays, padded with zero entries up to
the allocated sizes. -/
theorem marshal_spec (narrow : gdouble → gfloat) (inst : gpointer) (fi : GICallableInfo)
    (slots : va_list) (tr : List Event)
    (hrec : no_in_parameter fi.args = true) (hm : va_matches fi.args slots = true) :
    marshal narrow inst fi slots tr = .ok
      { ret := true,
        in_args := reference_in_args narrow inst fi.args slots ++
          List.replicate (fi.args.length + 1 - (reference_in_args narrow inst fi.args slots).length)
            GArgument.zero,
        n_in_args := (reference_in_args narrow inst fi.args slots).length,
        out_args := reference_out_args fi.args slots ++
          List.replicate (fi.args.length - (reference_out_args fi.args slots).length)
            GArgument.zero,
        n_out_args := (reference_out_args fi.args slots).length,
        args := slots.drop fi.args.length,
        trace := tr ++ [Event.acquire Resource.retval_info, Event.acquire Resource.in_args,
          Event.acquire Resource.out_args] ++ loop_events 0 fi.args.length } := by
  have h := marshal_loop_spec narrow fi.args slots 0 [pointer_argument inst] []
    fi.args.length fi.args.length
    (tr ++ [Event.acquire Resource.retval_info, Event.acquire Resource.in_args,
      Event.acquire Resource.out_args]) hrec hm (Nat.le_refl _) (Nat.le_refl _)
  simp only [marshal, array_write_instance]
  simp only [List.nil_append, List.length_singleton, List.length_nil, List.singleton_append,
    Nat.zero_add] at h
  rw [h]
  simp [reference_in_args, reference_out_args, Nat.add_comm 1]

/-- The marshaling phase, when it does not reach undefined behaviour, records
only acquisitions and releases. -/
theorem marshal_trace (narrow : gdouble → gfloat) (inst : gpointer) (fi : GICallableInfo)
    (args : va_list) (tr : List Event) (st : MarshalState)
    (h : marshal narrow inst fi args tr = .ok st) :
    invocations st.trace = invocations tr ∧ encode_calls st.trace = encode_calls tr := by
  simp only [marshal, array_write_instance] at h
  obtain ⟨k, -, hk⟩ := marshal_loop_trace narrow _ _ _ _ h
  simp only at hk
  rw [hk]
  simp [invocations_append, encode_calls_append, invocations_loop_events,
    encode_calls_loop_events, invocations, encode_calls]

/-- The marshaling phase that ends with `ret` set marshaled every declared
argument. -/
theorem marshal_complete (narrow : gdouble → gfloat) (inst : gpointer) (fi : GICallableInfo)
    (args : va_list) (tr : List Event) (st : MarshalState)
    (h : marshal narrow inst fi args tr = .ok st) (hret : st.ret = true) :
    st.n_in_args = 1 + fi.args.countP is_input ∧
    st.n_out_args = fi.args.countP is_output ∧
    (∃ consumed, consumed.length = fi.args.length ∧ args = consumed ++ st.args) ∧
    no_in_parameter fi.args = true := by
  simp only [marshal, array_write_instance] at h
  obtain ⟨-, hin, hout, hc, hrec, -⟩ := marshal_loop_complete narrow _ _ _ _ h hret
  simp only at hin hout hc
  exact ⟨hin, by simpa using hout, hc, hrec⟩

/-- The lookup records no invoker call and no `set_return_value` call; its
events concern the registry entry and the descriptor only. -/
theorem get_info_trace (lib : Collaborators) (iface_type : GType) (method_name : String) :
    invocations (peas_method_get_info lib iface_type method_name).2 = [] ∧
    encode_calls (peas_method_get_info lib iface_type method_name).2 = [] := by
  unfold peas_method_get_info
  cases lib.g_irepository_find_by_gtype iface_type with
  | none => simp [invocations, encode_calls]
  | some info =>
    simp only
    split <;> simp [invocations, encode_calls]

theorem in_tags_recognised_of_no_in (params : List GIArgInfo)
    (h : no_in_parameter params = true) : in_tags_recognised params = true := by
  simp only [no_in_parameter, in_tags_recognised, List.all_eq_true] at h ⊢
  intro p hp
  simp [h p hp]

/-- On a fitting variadic sequence the reference arrays have one entry per
input parameter (after the instance) and one per output parameter. -/
theorem reference_lengths (narrow : gdouble → gfloat) :
    ∀ (params : List GIArgInfo) (slots : va_list),
      in_tags_recognised params = true → va_matches params slots = true →
      ((List.zip params slots).filterMap (in_entry narrow)).length = params.countP is_input ∧
      ((List.zip params slots).filterMap out_entry).length = params.countP is_output := by
  intro params
  induction params with
  | nil => intro slots _ _; simp
  | cons p ps ih =>
    intro slots hrec hm
    cases slots with
    | nil => simp [va_matches] at hm
    | cons s ss =>
      simp only [va_matches, Bool.and_eq_true] at hm
      simp only [in_tags_recognised, List.all_cons, Bool.and_eq_true] at hrec
      obtain ⟨hi, ho⟩ := ih ss hrec.2 hm.2
      cases hdir : p.direction with
      | GI_DIRECTION_IN =>
        have hfit1 : tag_fits_slot p.type_info.tag s = true := by
          simpa [slot_fits, hdir] using hm.1
        obtain ⟨g, hg⟩ := read_next_argument_fits narrow _ _ hfit1
        simp [in_entry, out_entry, hdir, hg, is_input, is_output, hi, ho]
      | GI_DIRECTION_INOUT =>
        cases s <;> simp [slot_fits, hdir] at hm
        simp [in_entry, out_entry, hdir, is_input, is_output, hi, ho]
      | GI_DIRECTION_OUT =>
        cases s <;> simp [slot_fits, hdir] at hm
        simp [in_entry, out_entry, hdir, is_input, is_output, hi, ho]

/-- With a non-null destination `set_return_value` stores the member selected
by the tag and succeeds, or fails without a store when the tag selects none. -/
theorem set_return_value_selected (d : gpointer) (r : GArgument) (tag : GITypeTag)
    (mem : Memory) (hd : d ≠ 0) :
    set_return_value d r tag mem =
      match selected_field tag r with
      | some v => (true, mem.store d v)
      | none => (false, mem) := by
  cases tag <;> simp [set_return_value, hd, selected_field]

theorem selected_field_of_recognised (tag : GITypeTag) (r : GArgument)
    (h : recognised tag = true) : ∃ v, selected_field tag r = some v := by
  cases tag <;> simp [recognised] at h <;> exact ⟨_, rfl⟩

theorem recognised_of_selected_field (tag : GITypeTag) (r : GArgument) (v : CValue)
    (h : selected_field tag r = some v) : recognised tag = true := by
  cases tag <;> simp [selected_field] at h <;> rfl

/-- The cursor after a complete marshaling phase is what follows the parameter
slots. -/
theorem cursor_after_marshal (narrow : gdouble → gfloat) (inst : gpointer)
    (fi : GICallableInfo) (pslots rest : va_list) (tr : List Event) (st : MarshalState)
    (h : marshal narrow inst fi (pslots ++ rest) tr = .ok st) (hret : st.ret = true)
    (hlen : pslots.length = fi.args.length) : st.args = rest := by
  obtain ⟨-, -, ⟨c, hc, hca⟩, -⟩ := marshal_complete narrow inst fi _ tr st h hret
  exact ((List.append_inj hca (by rw [hlen, hc])).2).symm

/-- Marshaling of a descriptor without IN parameter: on a variadic sequence
that has a pointer slot for each declared parameter, the call hands the
invoker, exactly once, an input array whose filled part is the instance
followed in declaration order by the pointer of every INOUT parameter, and an
output array whose filled part is in declaration order the pointer of every OUT
or INOUT parameter; the counts handed over are the filled counts `1 + k` and
`m`, while the arrays have the allocated sizes `n + 1` and `n`. -/
theorem marshaling_without_in_parameter (lib : Collaborators) (inst : gpointer)
    (iface_type : GType) (method_name : String) (slots : va_list) (mem : Memory)
    (fi : GICallableInfo) (tr : List Event)
    (hget : peas_method_get_info lib iface_type method_name = (some fi, tr))
    (hrec : no_in_parameter fi.args = true) (hm : va_matches fi.args slots = true) :
    ∃ in_arr out_arr n_in n_out,
      invocations (run_trace
          (peas_method_apply_valist lib inst iface_type method_name slots mem))
        = [(in_arr, n_in, out_arr, n_out)] ∧
      in_arr.take n_in = reference_in_args lib.gdouble_to_gfloat inst fi.args slots ∧
      out_arr.take n_out = reference_out_args fi.args slots ∧
      n_in = 1 + fi.args.countP is_input ∧ n_out = fi.args.countP is_output ∧
      in_arr.length = fi.args.length + 1 ∧ out_arr.length = fi.args.length := by
  have hmar := marshal_spec lib.gdouble_to_gfloat inst fi slots tr hrec hm
  have hq := get_info_trace lib iface_type method_name
  rw [hget] at hq
  obtain ⟨hli, hlo⟩ := reference_lengths lib.gdouble_to_gfloat fi.args slots
    (in_tags_recognised_of_no_in _ hrec) hm
  have hci := List.countP_le_length is_input (l := fi.args)
  have hco := List.countP_le_length is_output (l := fi.args)
  have hrl : (reference_in_args lib.gdouble_to_gfloat inst fi.args slots).length
      = 1 + fi.args.countP is_input := by
    simp [reference_in_args, hli, Nat.add_comm]
  have hol : (reference_out_args fi.args slots).length = fi.args.countP is_output := by
    simp [reference_out_args, hlo]
  refine ⟨reference_in_args lib.gdouble_to_gfloat inst fi.args slots ++
      List.replicate (fi.args.length + 1 -
        (reference_in_args lib.gdouble_to_gfloat inst fi.args slots).length) GArgument.zero,
    reference_out_args fi.args slots ++
      List.replicate (fi.args.length - (reference_out_args fi.args slots).length)
        GArgument.zero,
    (reference_in_args lib.gdouble_to_gfloat inst fi.args slots).length,
    (reference_out_args fi.args slots).length, ?_, ?_, ?_, hrl, hol, ?_, ?_⟩
  · simp only [peas_method_apply_valist, hget, hmar]
    simp only [Bool.true_eq_false, if_false]
    split
    · simp [run_trace, invocations_append, invocations, hq.1, invocations_loop_events, cleanup]
    · split
      · split
        · simp [run_trace, invocations_append, invocations, hq.1, invocations_loop_events]
        · simp [run_trace, invocations_append, invocations, hq.1, invocations_loop_events,
            cleanup]
      · simp [run_trace, invocations_append, invocations, hq.1, invocations_loop_events,
          cleanup]
  · simp
  · simp
  · simp [hrl]; omega
  · simp [hol]; omega

/-- C2, defect of the code. At the scenario of the claim, the method
`(IN int32, OUT double)` called with `(42, &outDouble, &outInt64)`, every IN tag
is recognised and every slot fits, and the reference input array is
`[instance, 42]`.  The code does not hand it to the invoker: the first
iteration calls `read_next_argument` with `&args`, the address of the by-value
`va_list` parameter, and the `va_arg` of the case `GI_TYPE_TAG_INT32` on what
is behind that pointer is undefined behaviour.  The run stops there and no
invoker call is recorded. -/
theorem marshaling_scenario_undefined :
    in_tags_recognised scenario_info.args = true ∧
    va_matches scenario_info.args scenario_args = true ∧
    reference_in_args (fun _ => ⟨0⟩) 500 scenario_info.args scenario_args
      = [pointer_argument 500, { GArgument.zero with v_int32 := 42 }] ∧
    reference_out_args scenario_info.args scenario_args = [pointer_argument 1000] ∧
    marshal (fun _ => ⟨0⟩) 500 scenario_info scenario_args [] =
      .error (UB.va_list_pointer_mismatch,
        [Event.acquire Resource.retval_info, Event.acquire Resource.in_args,
         Event.acquire Resource.out_args, Event.acquire (Resource.arg_info 0),
         Event.acquire (Resource.arg_type_info 0)]) ∧
    invocations (run_trace
      (peas_method_apply_valist (registry_with scenario_info scenario_invoke) 500 100
        "compute" scenario_args empty_memory)) = [] :=
  ⟨by decide, by decide, by decide, by decide, rfl, by decide⟩

/-- C3, as stated, fails: for the descriptor `(IN unrecognised, OUT double)`,
which has one OUT parameter, the loop stops at the first parameter and finishes
with `n_out_args = 0`, not `1`. -/
theorem argument_count_counterexample :
    ∃ st, marshal (fun _ => ⟨0⟩) 500 undecodable_info [VaSlot.pointer 1000] [] = .ok st ∧
      undecodable_info.args.countP is_output = 1 ∧ st.n_out_args = 0 :=
  ⟨_, rfl, by decide, rfl⟩

/-- C3, amended. Argument count invariant: for any method descriptor with `k`
parameters IN or INOUT and `m` parameters OUT or INOUT, whenever the marshaling
loop finishes without a decode failure (`ret` still set), `n_in_args = k + 1`
and `n_out_args = m`.  The loop does finish so for every descriptor without IN
parameter on a variadic sequence with a pointer slot for each parameter. -/
theorem argument_count_invariant (narrow : gdouble → gfloat) (inst : gpointer)
    (fi : GICallableInfo) (slots : va_list) (tr : List Event) :
    (∀ st, marshal narrow inst fi slots tr = .ok st → st.ret = true →
      st.n_in_args = fi.args.countP is_input + 1 ∧
      st.n_out_args = fi.args.countP is_output) ∧
    (no_in_parameter fi.args = true → va_matches fi.args slots = true →
      ∃ st, marshal narrow inst fi slots tr = .ok st ∧ st.ret = true) := by
  constructor
  · intro st hst hret
    obtain ⟨hin, hout, -, -⟩ := marshal_complete narrow inst fi slots tr st hst hret
    exact ⟨by omega, hout⟩
  · intro hrec hm
    exact ⟨_, marshal_spec narrow inst fi slots tr hrec hm, rfl⟩

/-- Witness of `argument_count_invariant`: the method `(OUT double)` has `k = 0`
and `m = 1`; its marshaling loop finishes with `n_in_args = 1` and
`n_out_args = 1`. -/
theorem argument_count_invariant_witness :
    ∃ st, marshal (fun _ => ⟨0⟩) 500 out_only_info out_only_args [] = .ok st ∧
      st.ret = true ∧ st.n_in_args = 0 + 1 ∧ st.n_out_args = 1 := by
  obtain ⟨st, hst, hret⟩ :=
    (argument_count_invariant (fun _ => ⟨0⟩) 500 out_only_info out_only_args []).2
      (by decide) (by decide)
  exact ⟨st, hst, hret,
    (argument_count_invariant (fun _ => ⟨0⟩) 500 out_only_info out_only_args []).1 st hst hret⟩

/-- Return value write-back after a successful marshaling: when the method
resolves, marshaling succeeds, the invoker succeeds with return value `r`
leaving memory `mem1`, the return tag is recognised and not void, and the slot
after the `n` parameter slots holds the non-null destination `d`, the call
returns `TRUE`, consumes that slot, and leaves memory equal to `mem1` with the
member of `r` selected by the tag stored at `d`; nothing else is stored. -/
theorem return_value_write_back (lib : Collaborators) (inst : gpointer) (iface_type : GType)
    (method_name : String) (pslots rest : va_list) (mem mem1 : Memory)
    (fi : GICallableInfo) (tr : List Event) (st : MarshalState) (r : GArgument) (d : gpointer)
    (hget : peas_method_get_info lib iface_type method_name = (some fi, tr))
    (hmar : marshal lib.gdouble_to_gfloat inst fi (pslots ++ VaSlot.pointer d :: rest) tr
      = .ok st)
    (hret : st.ret = true)
    (hinv : lib.g_function_info_invoke fi st.in_args st.n_in_args st.out_args st.n_out_args mem
      = (true, r, mem1))
    (htag : recognised fi.return_type.tag = true)
    (hvoid : fi.return_type.tag ≠ GI_TYPE_TAG_VOID)
    (hlen : pslots.length = fi.args.length) (hd : d ≠ 0) :
    ∃ res v,
      peas_method_apply_valist lib inst iface_type method_name
        (pslots ++ VaSlot.pointer d :: rest) mem = .ok res ∧
      res.ret = true ∧ selected_field fi.return_type.tag r = some v ∧
      res.mem = mem1.store d v ∧ res.args = rest ∧ encode_calls res.trace = [d] := by
  have hcur := cursor_after_marshal _ _ _ _ _ _ _ hmar hret hlen
  obtain ⟨v, hv⟩ := selected_field_of_recognised fi.return_type.tag r htag
  have hq := get_info_trace lib iface_type method_name
  rw [hget] at hq
  have ht := marshal_trace _ _ _ _ _ _ hmar
  simp only [peas_method_apply_valist, hget, hmar, hret, hinv, hcur, va_arg_gpointer,
    set_return_value_selected _ _ _ _ hd, hv]
  simp [hvoid, encode_calls_append, encode_calls, ht.2, hq.2, cleanup]

/-- Instance of `return_value_write_back`: the method `(OUT double)` returning
`int64`, called with `(&outDouble, &outInt64)`; the invoker returns
`v_int64 = 7` and the call stores `7` as a `gint64` at the address of
`outInt64`. -/
theorem return_value_write_back_witness :
    ∃ res v,
      peas_method_apply_valist (registry_with out_only_info scenario_invoke) 500 100 "compute"
        ([VaSlot.pointer 1000] ++ VaSlot.pointer 2000 :: []) empty_memory = .ok res ∧
      res.ret = true ∧
      selected_field out_only_info.return_type.tag { GArgument.zero with v_int64 := 7 }
        = some v ∧
      res.mem = Memory.store
        (Memory.store empty_memory 1000 (CValue.gdouble ⟨4614253070214989087⟩)) 2000 v ∧
      res.args = [] ∧ encode_calls res.trace = [2000] :=
  return_value_write_back (registry_with out_only_info scenario_invoke) 500 100 "compute"
    [VaSlot.pointer 1000] [] empty_memory
    (Memory.store empty_memory 1000 (CValue.gdouble ⟨4614253070214989087⟩))
    out_only_info
    [Event.acquire Resource.iface_info, Event.acquire Resource.func_info,
      Event.release Resource.iface_info]
    { ret := true, in_args := [pointer_argument 500, GArgument.zero], n_in_args := 1,
      out_args := [pointer_argument 1000], n_out_args := 1, args := [VaSlot.pointer 2000],
      trace := [Event.acquire Resource.iface_info, Event.acquire Resource.func_info,
        Event.release Resource.iface_info, Event.acquire Resource.retval_info,
        Event.acquire Resource.in_args, Event.acquire Resource.out_args] ++ loop_events 0 1 }
    { GArgument.zero with v_int64 := 7 } 2000
    (by decide) rfl rfl rfl (by decide) (by decide) rfl (by decide)

/-- C6, as stated, fails: the method `(IN unrecognised, OUT double)` returns
void and the invoker of this registry reports success on every input, yet the
call returns `FALSE`, because marshaling fails and the invoker is not called. -/
theorem void_return_counterexample :
    ∃ res,
      peas_method_apply_valist (registry_with undecodable_info scenario_invoke) 500 100
        "compute" [VaSlot.pointer 1000] empty_memory = .ok res ∧
      undecodable_info.return_type.tag = GI_TYPE_TAG_VOID ∧
      res.ret = false ∧ invocations res.trace = [] ∧
      ∀ fi a n b m mem,
        ((registry_with undecodable_info scenario_invoke).g_function_info_invoke
          fi a n b m mem).1 = true :=
  ⟨_, rfl, rfl, rfl, by decide, fun _ _ _ _ _ _ => rfl⟩

/-- C6, amended. Void return skips encode: for every call whose resolved
descriptor has the void return tag, the cursor at return is the cursor at the
end of marshaling (no destination is consumed), `set_return_value` is never
invoked, and when marshaling succeeded the invoker is called once and the
result of the call is its success flag; when marshaling failed the invoker is
not called and the result is `FALSE`. -/
theorem void_return_skips_encode (lib : Collaborators) (inst : gpointer) (iface_type : GType)
    (method_name : String) (args : va_list) (mem : Memory) (fi : GICallableInfo)
    (tr : List Event) (st : MarshalState)
    (hget : peas_method_get_info lib iface_type method_name = (some fi, tr))
    (hvoid : fi.return_type.tag = GI_TYPE_TAG_VOID)
    (hmar : marshal lib.gdouble_to_gfloat inst fi args tr = .ok st) :
    ∃ res,
      peas_method_apply_valist lib inst iface_type method_name args mem = .ok res ∧
      res.args = st.args ∧ encode_calls res.trace = [] ∧
      (st.ret = true →
        res.ret = (lib.g_function_info_invoke fi st.in_args st.n_in_args st.out_args
          st.n_out_args mem).1 ∧
        invocations res.trace = [(st.in_args, st.n_in_args, st.out_args, st.n_out_args)]) ∧
      (st.ret = false → res.ret = false ∧ invocations res.trace = []) := by
  have hq := get_info_trace lib iface_type method_name
  rw [hget] at hq
  have ht := marshal_trace _ _ _ _ _ _ hmar
  simp only [peas_method_apply_valist, hget, hmar]
  cases hret : st.ret with
  | false =>
    simp [encode_calls_append, invocations_append, encode_calls, invocations, ht, hq, cleanup]
  | true =>
    rcases hinv : lib.g_function_info_invoke fi st.in_args st.n_in_args st.out_args
      st.n_out_args mem with ⟨b, r, mem1⟩
    cases b <;>
      simp [hvoid, encode_calls_append, invocations_append, encode_calls, invocations, ht, hq,
        cleanup]

/-- Witness of `void_return_skips_encode`: the method `(INOUT int32)` returning
void, called with one pointer followed by a further slot that stays unconsumed. -/
theorem void_return_skips_encode_witness :
    ∃ res,
      peas_method_apply_valist (registry_with void_info scenario_invoke) 500 100 "compute"
        [VaSlot.pointer 1000, VaSlot.pointer 2000] empty_memory = .ok res ∧
      res.args = [VaSlot.pointer 2000] ∧ encode_calls res.trace = [] ∧ res.ret = true ∧
      invocations res.trace = [([pointer_argument 500, pointer_argument 1000], 2,
        [pointer_argument 1000], 1)] := by
  obtain ⟨res, h1, h2, h3, h4, -⟩ :=
    void_return_skips_encode (registry_with void_info scenario_invoke) 500 100 "compute"
      [VaSlot.pointer 1000, VaSlot.pointer 2000] empty_memory void_info
      [Event.acquire Resource.iface_info, Event.acquire Resource.func_info,
        Event.release Resource.iface_info]
      { ret := true, in_args := [pointer_argument 500, pointer_argument 1000], n_in_args := 2,
        out_args := [pointer_argument 1000], n_out_args := 1, args := [VaSlot.pointer 2000],
        trace := [Event.acquire Resource.iface_info, Event.acquire Resource.func_info,
          Event.release Resource.iface_info, Event.acquire Resource.retval_info,
          Event.acquire Resource.in_args, Event.acquire Resource.out_args] ++ loop_events 0 1 }
      (by decide) rfl rfl
  exact ⟨res, h1, h2, h3, (h4 rfl).1, (h4 rfl).2⟩

/-- C7. Abort on not-found: when `peas_method_get_info` yields no descriptor, the
call returns `FALSE`, the cursor and caller memory are unchanged, and the only
events are the acquisition and release of the registry entry: no array is
created, the invoker is not called and `set_return_value` is not called. -/
theorem abort_on_not_found (lib : Collaborators) (inst : gpointer) (iface_type : GType)
    (method_name : String) (args : va_list) (mem : Memory)
    (hget : (peas_method_get_info lib iface_type method_name).1 = none) :
    ∃ res,
      peas_method_apply_valist lib inst iface_type method_name args mem = .ok res ∧
      res.ret = false ∧ res.args = args ∧ res.mem = mem ∧
      (∀ e ∈ res.trace,
        e = Event.acquire Resource.iface_info ∨ e = Event.release Resource.iface_info) := by
  unfold peas_method_apply_valist
  unfold peas_method_get_info at hget ⊢
  cases hfind : lib.g_irepository_find_by_gtype iface_type with
  | none => simp
  | some info =>
    simp only [hfind] at hget
    simp only
    split at hget
    · next hfi => simp [hfi]
    · simp at hget

/-- Witness of `abort_on_not_found`: an unknown method name on the registered
interface type. -/
theorem abort_on_not_found_witness :
    ∃ res,
      peas_method_apply_valist (registry_with scenario_info scenario_invoke) 500 100 "missing"
        scenario_args empty_memory = .ok res ∧
      res.ret = false ∧ res.args = scenario_args ∧ res.mem = empty_memory ∧
      (∀ e ∈ res.trace,
        e = Event.acquire Resource.iface_info ∨ e = Event.release Resource.iface_info) :=
  abort_on_not_found (registry_with scenario_info scenario_invoke) 500 100 "missing"
    scenario_args empty_memory (by decide)

/-- C8, as stated, fails: under the recognised non-void tag `GI_TYPE_TAG_INT64`,
`set_return_value` with a null destination returns `TRUE`, not `FALSE`. -/
theorem null_destination_counterexample :
    recognised GI_TYPE_TAG_INT64 = true ∧ GI_TYPE_TAG_INT64 ≠ GI_TYPE_TAG_VOID ∧
    (set_return_value 0 { GArgument.zero with v_int64 := 7 } GI_TYPE_TAG_INT64
      empty_memory).1 = true :=
  ⟨rfl, by decide, rfl⟩

/-- C8, amended. A null return destination is accepted: for every return tag,
`set_return_value` with a null destination returns `TRUE` and stores nothing,
so a call whose method resolves, marshals and invokes successfully, whose
return tag is not void and whose return-destination slot is null returns
`TRUE`, consumes that slot and leaves memory as the invoker left it. -/
theorem null_destination_accepted (lib : Collaborators) (inst : gpointer) (iface_type : GType)
    (method_name : String) (pslots rest : va_list) (mem mem1 : Memory)
    (fi : GICallableInfo) (tr : List Event) (st : MarshalState) (r : GArgument)
    (hget : peas_method_get_info lib iface_type method_name = (some fi, tr))
    (hmar : marshal lib.gdouble_to_gfloat inst fi (pslots ++ VaSlot.pointer 0 :: rest) tr
      = .ok st)
    (hret : st.ret = true)
    (hinv : lib.g_function_info_invoke fi st.in_args st.n_in_args st.out_args st.n_out_args mem
      = (true, r, mem1))
    (hvoid : fi.return_type.tag ≠ GI_TYPE_TAG_VOID)
    (hlen : pslots.length = fi.args.length) :
    (∀ (r0 : GArgument) (tag : GITypeTag) (m : Memory),
      set_return_value 0 r0 tag m = (true, m)) ∧
    ∃ res,
      peas_method_apply_valist lib inst iface_type method_name
        (pslots ++ VaSlot.pointer 0 :: rest) mem = .ok res ∧
      res.ret = true ∧ res.mem = mem1 ∧ res.args = rest := by
  have hcur := cursor_after_marshal _ _ _ _ _ _ _ hmar hret hlen
  refine ⟨fun r0 tag m => by simp [set_return_value], ?_⟩
  simp only [peas_method_apply_valist, hget, hmar, hret, hinv, hcur, va_arg_gpointer]
  simp [hvoid, set_return_value]

/-- Witness of `null_destination_accepted`: the method `(OUT double)` returning
`int64`, called with `(&outDouble, NULL)`. -/
theorem null_destination_accepted_witness :
    (∀ (r0 : GArgument) (tag : GITypeTag) (m : Memory),
      set_return_value 0 r0 tag m = (true, m)) ∧
    ∃ res,
      peas_method_apply_valist (registry_with out_only_info scenario_invoke) 500 100 "compute"
        ([VaSlot.pointer 1000] ++ VaSlot.pointer 0 :: []) empty_memory = .ok res ∧
      res.ret = true ∧
      res.mem = Memory.store empty_memory 1000 (CValue.gdouble ⟨4614253070214989087⟩) ∧
      res.args = [] :=
  null_destination_accepted (registry_with out_only_info scenario_invoke) 500 100 "compute"
    [VaSlot.pointer 1000] [] empty_memory
    (Memory.store empty_memory 1000 (CValue.gdouble ⟨4614253070214989087⟩))
    out_only_info
    [Event.acquire Resource.iface_info, Event.acquire Resource.func_info,
      Event.release Resource.iface_info]
    { ret := true, in_args := [pointer_argument 500, GArgument.zero], n_in_args := 1,
      out_args := [pointer_argument 1000], n_out_args := 1, args := [VaSlot.pointer 0],
      trace := [Event.acquire Resource.iface_info, Event.acquire Resource.func_info,
        Event.release Resource.iface_info, Event.acquire Resource.retval_info,
        Event.acquire Resource.in_args, Event.acquire Resource.out_args] ++ loop_events 0 1 }
    { GArgument.zero with v_int64 := 7 }
    (by decide) rfl rfl rfl (by decide) rfl

/-- C9, as stated, fails: the method `(OUT double)` returning `int64`, called
with `(&outDouble, NULL)`, returns `TRUE` although the return tag is not void
and the return value `7` of the invoker is stored nowhere. -/
theorem all_or_nothing_counterexample :
    ∃ res,
      peas_method_apply_valist (registry_with out_only_info scenario_invoke) 500 100 "compute"
        [VaSlot.pointer 1000, VaSlot.pointer 0] empty_memory = .ok res ∧
      res.ret = true ∧ out_only_info.return_type.tag ≠ GI_TYPE_TAG_VOID ∧
      ∀ a, res.mem a ≠ some (CValue.gint64 7) := by
  refine ⟨{ ret := true, args := [],
            mem := Memory.store empty_memory 1000 (CValue.gdouble ⟨4614253070214989087⟩),
            trace := _ }, rfl, rfl, by decide, ?_⟩
  intro a
  simp only [Memory.store, empty_memory]
  split <;> simp

/-- C9, amended. All-or-nothing result: a call that returns does so with `TRUE`
exactly when the descriptor was resolved, every declared argument was marshaled
(one slot consumed per parameter, the counts at `1 + k` and `m`), the invoker
was called exactly once and succeeded, and, if the return tag is not void, the
next slot held a destination pointer that was either null, in which case nothing
is stored, or non-null with the selected member of the return value of the
invoker stored through it.  In every other case the call returns `FALSE`. -/
theorem all_or_nothing (lib : Collaborators) (inst : gpointer) (iface_type : GType)
    (method_name : String) (args : va_list) (mem : Memory) (res : ApplyResult)
    (h : peas_method_apply_valist lib inst iface_type method_name args mem = .ok res) :
    res.ret = true ↔
      ∃ fi tr st r mem1,
        peas_method_get_info lib iface_type method_name = (some fi, tr) ∧
        marshal lib.gdouble_to_gfloat inst fi args tr = .ok st ∧ st.ret = true ∧
        st.n_in_args = 1 + fi.args.countP is_input ∧
        st.n_out_args = fi.args.countP is_output ∧
        (∃ consumed, consumed.length = fi.args.length ∧ args = consumed ++ st.args) ∧
        lib.g_function_info_invoke fi st.in_args st.n_in_args st.out_args st.n_out_args mem
          = (true, r, mem1) ∧
        invocations res.trace = [(st.in_args, st.n_in_args, st.out_args, st.n_out_args)] ∧
        (fi.return_type.tag = GI_TYPE_TAG_VOID ∧ res.mem = mem1 ∧ res.args = st.args ∨
         fi.return_type.tag ≠ GI_TYPE_TAG_VOID ∧
          ∃ d rest, st.args = VaSlot.pointer d :: rest ∧ res.args = rest ∧
            (d = 0 ∧ res.mem = mem1 ∨
             d ≠ 0 ∧ ∃ v, selected_field fi.return_type.tag r = some v ∧
               res.mem = mem1.store d v)) := by
  have hq := get_info_trace lib iface_type method_name
  constructor
  · intro hres
    unfold peas_method_apply_valist at h
    rcases hget : peas_method_get_info lib iface_type method_name with ⟨_ | fi, tr⟩
    · simp only [hget, Except.ok.injEq] at h
      subst h
      simp at hres
    · simp only [hget] at h hq
      cases hmar : marshal lib.gdouble_to_gfloat inst fi args tr with
      | error e => simp [hmar] at h
      | ok st =>
        have ht := marshal_trace _ _ _ _ _ _ hmar
        simp only [hmar] at h
        cases hst : st.ret with
        | false =>
          simp only [hst, if_true, Except.ok.injEq] at h
          subst h
          simp at hres
        | true =>
          obtain ⟨hin, hout, hc, -⟩ := marshal_complete _ _ _ _ _ _ hmar hst
          simp only [hst, Bool.true_eq_false, if_false] at h
          rcases hinv : lib.g_function_info_invoke fi st.in_args st.n_in_args st.out_args
            st.n_out_args mem with ⟨b, r, mem1⟩
          cases b with
          | false =>
            simp only [hinv, Except.ok.injEq] at h
            subst h
            simp at hres
          | true =>
            simp only [hinv] at h
            refine ⟨fi, tr, st, r, mem1, rfl, hmar, hst, hin, hout, hc, hinv, ?_, ?_⟩
            · by_cases hvoid : fi.return_type.tag = GI_TYPE_TAG_VOID
              · simp only [hvoid, ne_eq, not_true_eq_false, if_false, Except.ok.injEq] at h
                subst h
                simp [invocations_append, invocations, ht, hq, cleanup]
              · simp only [ne_eq, hvoid, not_false_eq_true, if_true] at h
                rcases hargs : st.args with _ | ⟨s, ss⟩
                · simp [hargs, va_arg_gpointer] at h
                · cases s <;> simp [hargs, va_arg_gpointer] at h
                  subst h
                  simp [invocations_append, invocations, ht, hq, cleanup]
            · by_cases hvoid : fi.return_type.tag = GI_TYPE_TAG_VOID
              · left
                simp only [hvoid, ne_eq, not_true_eq_false, if_false, Except.ok.injEq] at h
                subst h
                exact ⟨hvoid, rfl, rfl⟩
              · right
                simp only [ne_eq, hvoid, not_false_eq_true, if_true] at h
                rcases hargs : st.args with _ | ⟨s, ss⟩
                · simp [hargs, va_arg_gpointer] at h
                · cases s <;> simp [hargs, va_arg_gpointer] at h
                  next d =>
                  refine ⟨hvoid, d, ss, rfl, ?_, ?_⟩
                  · subst h; rfl
                  · by_cases hd : d = 0
                    · left
                      subst hd
                      subst h
                      exact ⟨rfl, by simp [set_return_value]⟩
                    · right
                      rw [set_return_value_selected _ _ _ _ hd] at h
                      cases hsel : selected_field fi.return_type.tag r with
                      | none =>
                        simp only [hsel] at h
                        subst h
                        simp at hres
                      | some v =>
                        simp only [hsel] at h
                        subst h
                        exact ⟨hd, v, rfl, rfl⟩
  · rintro ⟨fi, tr, st, r, mem1, hget, hmar, hst, -, -, -, hinv, -, hcase⟩
    simp only [peas_method_apply_valist, hget, hmar, hst, hinv, Bool.true_eq_false,
      if_false] at h
    rcases hcase with ⟨hvoid, -, -⟩ | ⟨hvoid, d, rest, hargs, -, hd⟩
    · simp only [hvoid, ne_eq, not_true_eq_false, if_false, Except.ok.injEq] at h
      rw [← h]
    · simp only [ne_eq, hvoid, not_false_eq_true, if_true, hargs, va_arg_gpointer] at h
      rcases hd with ⟨rfl, -⟩ | ⟨hd, v, hv, -⟩
      · simp only [set_return_value, if_true, Except.ok.injEq] at h
        rw [← h]
      · rw [set_return_value_selected _ _ _ _ hd, hv] at h
        simp only [Except.ok.injEq] at h
        rw [← h]

/-- Witness of `all_or_nothing`: the method `(OUT double)` returning `int64`,
called with `(&outDouble, &outInt64)`, returns `TRUE`, so all the conditions
hold for it. -/
theorem all_or_nothing_witness :
    ∃ res,
      peas_method_apply_valist (registry_with out_only_info scenario_invoke) 500 100 "compute"
        out_only_args empty_memory = .ok res ∧ res.ret = true ∧
      ∃ fi tr st r mem1,
        peas_method_get_info (registry_with out_only_info scenario_invoke) 100 "compute"
          = (some fi, tr) ∧
        marshal (registry_with out_only_info scenario_invoke).gdouble_to_gfloat 500 fi
          out_only_args tr = .ok st ∧ st.ret = true ∧
        st.n_in_args = 1 + fi.args.countP is_input ∧
        st.n_out_args = fi.args.countP is_output ∧
        (∃ consumed, consumed.length = fi.args.length ∧ out_only_args = consumed ++ st.args) ∧
        (registry_with out_only_info scenario_invoke).g_function_info_invoke fi st.in_args
          st.n_in_args st.out_args st.n_out_args empty_memory = (true, r, mem1) ∧
        invocations res.trace = [(st.in_args, st.n_in_args, st.out_args, st.n_out_args)] ∧
        (fi.return_type.tag = GI_TYPE_TAG_VOID ∧ res.mem = mem1 ∧ res.args = st.args ∨
         fi.return_type.tag ≠ GI_TYPE_TAG_VOID ∧
          ∃ d rest, st.args = VaSlot.pointer d :: rest ∧ res.args = rest ∧
            (d = 0 ∧ res.mem = mem1 ∨
             d ≠ 0 ∧ ∃ v, selected_field fi.return_type.tag r = some v ∧
               res.mem = mem1.store d v)) :=
  ⟨_, rfl, rfl,
    (all_or_nothing (registry_with out_only_info scenario_invoke) 500 100 "compute"
      out_only_args empty_memory _ rfl).mp rfl⟩

/-- C10. Invocation failure aborts without write-back: when the method
resolves and marshaling succeeds but the invoker reports failure, leaving
memory `mem1`, the call returns `FALSE`, the cursor stays where marshaling left
it, `set_return_value` is not invoked and memory is `mem1`, whatever the return
tag is. -/
theorem invocation_failure_aborts (lib : Collaborators) (inst : gpointer) (iface_type : GType)
    (method_name : String) (args : va_list) (mem mem1 : Memory) (fi : GICallableInfo)
    (tr : List Event) (st : MarshalState) (r : GArgument)
    (hget : peas_method_get_info lib iface_type method_name = (some fi, tr))
    (hmar : marshal lib.gdouble_to_gfloat inst fi args tr = .ok st)
    (hret : st.ret = true)
    (hinv : lib.g_function_info_invoke fi st.in_args st.n_in_args st.out_args st.n_out_args mem
      = (false, r, mem1)) :
    ∃ res,
      peas_method_apply_valist lib inst iface_type method_name args mem = .ok res ∧
      res.ret = false ∧ res.args = st.args ∧ res.mem = mem1 ∧
      encode_calls res.trace = [] ∧
      invocations res.trace = [(st.in_args, st.n_in_args, st.out_args, st.n_out_args)] := by
  have hq := get_info_trace lib iface_type method_name
  rw [hget] at hq
  have ht := marshal_trace _ _ _ _ _ _ hmar
  simp only [peas_method_apply_valist, hget, hmar, hret, hinv]
  simp [encode_calls_append, invocations_append, encode_calls, invocations, ht, hq, cleanup]

/-- Witness of `invocation_failure_aborts`: the method `(OUT double)` returning
`int64`, called with `(&outDouble, &outInt64)` and an invoker that reports
failure; the return destination slot stays in the cursor. -/
theorem invocation_failure_aborts_witness :
    ∃ res,
      peas_method_apply_valist (registry_with out_only_info failing_invoke) 500 100 "compute"
        out_only_args empty_memory = .ok res ∧
      res.ret = false ∧ res.args = [VaSlot.pointer 2000] ∧ res.mem = empty_memory ∧
      encode_calls res.trace = [] ∧
      invocations res.trace =
        [([pointer_argument 500, GArgument.zero], 1, [pointer_argument 1000], 1)] :=
  invocation_failure_aborts (registry_with out_only_info failing_invoke) 500 100 "compute"
    out_only_args empty_memory empty_memory out_only_info
    [Event.acquire Resource.iface_info, Event.acquire Resource.func_info,
      Event.release Resource.iface_info]
    { ret := true, in_args := [pointer_argument 500, GArgument.zero], n_in_args := 1,
      out_args := [pointer_argument 1000], n_out_args := 1, args := [VaSlot.pointer 2000],
      trace := [Event.acquire Resource.iface_info, Event.acquire Resource.func_info,
        Event.release Resource.iface_info, Event.acquire Resource.retval_info,
        Event.acquire Resource.in_args, Event.acquire Resource.out_args] ++ loop_events 0 1 }
    GArgument.zero (by decide) rfl rfl rfl

/-! ### Further facts about the marshaling loop -/

/-- Once `ret` is cleared the loop does nothing more. -/
theorem marshal_loop_of_ret_false (narrow : gdouble → gfloat) (i : Nat)
    (params : List GIArgInfo) (st : MarshalState) (h : st.ret = false) :
    marshal_loop narrow i params st = .ok st := by
  cases params with
  | nil => rfl
  | cons p ps => simp [marshal_loop, h]

/-- The loop over `xs ++ ys` is the loop over `xs` followed by the loop over `ys`. -/
theorem marshal_loop_append (narrow : gdouble → gfloat) :
    ∀ (xs ys : List GIArgInfo) (i : Nat) (st : MarshalState),
      marshal_loop narrow i (xs ++ ys) st =
        match marshal_loop narrow i xs st with
        | .error e => .error e
        | .ok st1 => marshal_loop narrow (i + xs.length) ys st1 := by
  intro xs
  induction xs with
  | nil => intro ys i st; simp [marshal_loop]
  | cons x xs ih =>
    intro ys i st
    cases hret : st.ret with
    | false =>
      simp only [List.cons_append, marshal_loop, hret, Bool.false_eq_true, if_false]
      exact (marshal_loop_of_ret_false narrow _ ys st hret).symm
    | true =>
      simp only [List.cons_append, marshal_loop, hret, if_true]
      cases hstep : marshal_arg narrow i x st with
      | error e => rfl
      | ok st1 =>
        simp only [List.length_cons]
        rw [show i + (xs.length + 1) = i + 1 + xs.length by omega]
        exact ih ys (i + 1) st1

theorem va_matches_append_right :
    ∀ (params : List GIArgInfo) (slots rest : va_list),
      va_matches params slots = true → va_matches params (slots ++ rest) = true := by
  intro params
  induction params with
  | nil => intro slots rest _; rfl
  | cons p ps ih =>
    intro slots rest h
    cases slots with
    | nil => simp [va_matches] at h
    | cons s ss =>
      simp only [va_matches, Bool.and_eq_true, List.cons_append] at h ⊢
      exact ⟨h.1, ih ss rest h.2⟩

/-- The marshaling phase on a descriptor whose parameter `p`, declared after the
OUT and INOUT parameters `pre`, is an IN parameter with an unrecognised tag:
the slots of `pre` are consumed, `ret` is cleared and nothing after them is
consumed. -/
theorem marshal_decode_failure (narrow : gdouble → gfloat) (inst : gpointer)
    (fi : GICallableInfo) (spre rest : va_list) (tr : List Event)
    (pre post : List GIArgInfo) (p : GIArgInfo)
    (hfi : fi.args = pre ++ p :: post) (hdir : p.direction = GI_DIRECTION_IN)
    (hbad : recognised p.type_info.tag = false)
    (hrec : no_in_parameter pre = true) (hm : va_matches pre spre = true)
    (hlen : spre.length = pre.length) :
    ∃ st, marshal narrow inst fi (spre ++ rest) tr = .ok st ∧ st.ret = false ∧
      st.args = rest := by
  have hspec := marshal_loop_spec narrow pre (spre ++ rest) 0 [pointer_argument inst] []
    fi.args.length fi.args.length
    (tr ++ [Event.acquire Resource.retval_info, Event.acquire Resource.in_args,
      Event.acquire Resource.out_args]) hrec (va_matches_append_right pre spre rest hm)
    (by rw [hfi]; simp) (by rw [hfi]; simp)
  simp only [List.nil_append, List.length_singleton, List.length_nil, List.singleton_append]
    at hspec
  simp only [marshal, array_write_instance]
  rw [hfi, marshal_loop_append]
  rw [← hfi, hspec]
  have hdrop : List.drop pre.length (spre ++ rest) = rest := by
    rw [← hlen]; simp
  obtain ⟨c, hc⟩ : ∃ c, p.type_info.tag = GITypeTag.OTHER c := by
    cases htag : p.type_info.tag <;> simp [htag, recognised] at hbad
    exact ⟨_, rfl⟩
  simp only [marshal_loop, if_true, marshal_arg, hdir, hc, read_next_argument]
  refine ⟨_, marshal_loop_of_ret_false narrow _ post _ rfl, rfl, ?_⟩
  exact hdrop

/-! ### The claims about failure, symmetry and widths -/

/-- Decode failure after OUT and INOUT parameters: for a resolved descriptor in
which the parameter `p`, declared after parameters `pre` none of which is an IN
parameter, is an IN parameter with a tag that `read_next_argument` does not
recognise, and a variadic sequence that starts with pointer slots `spre` for
`pre`, the call consumes the slots of `pre` only, never calls the invoker or
`set_return_value`, leaves caller memory unchanged and returns `FALSE`. -/
theorem decode_failure_after_pointers (lib : Collaborators) (inst : gpointer)
    (iface_type : GType) (method_name : String) (spre rest : va_list) (mem : Memory)
    (fi : GICallableInfo) (tr : List Event) (pre post : List GIArgInfo) (p : GIArgInfo)
    (hget : peas_method_get_info lib iface_type method_name = (some fi, tr))
    (hfi : fi.args = pre ++ p :: post) (hdir : p.direction = GI_DIRECTION_IN)
    (hbad : recognised p.type_info.tag = false)
    (hrec : no_in_parameter pre = true) (hm : va_matches pre spre = true)
    (hlen : spre.length = pre.length) :
    ∃ res,
      peas_method_apply_valist lib inst iface_type method_name (spre ++ rest) mem = .ok res ∧
      res.ret = false ∧ res.args = rest ∧ res.mem = mem ∧
      invocations res.trace = [] ∧ encode_calls res.trace = [] := by
  obtain ⟨st, hmar, hret, hargs⟩ := marshal_decode_failure lib.gdouble_to_gfloat inst fi
    spre rest tr pre post p hfi hdir hbad hrec hm hlen
  have hq := get_info_trace lib iface_type method_name
  rw [hget] at hq
  have ht := marshal_trace _ _ _ _ _ _ hmar
  simp only [peas_method_apply_valist, hget, hmar, hret, if_true]
  simp [hargs, encode_calls_append, invocations_append, encode_calls, invocations, ht, hq,
    cleanup]

/-- C11, defect of the code. The method `(IN int32, IN unrecognised, OUT double)`
has an IN parameter with an unrecognised tag, its second.  Called with
`(42, 1000, 2000)`, the call does not stop at that parameter with `FALSE`: the
first iteration, for the recognised `IN int32`, calls `read_next_argument` with
`&args`, the address of the by-value `va_list` parameter, and the `va_arg` on
what is behind that pointer is undefined behaviour.  The run has no result. -/
theorem decode_failure_scenario_undefined :
    late_failure_info.args.map (fun p => (p.direction, recognised p.type_info.tag))
      = [(GI_DIRECTION_IN, true), (GI_DIRECTION_IN, false), (GI_DIRECTION_OUT, true)] ∧
    peas_method_apply_valist (registry_with late_failure_info scenario_invoke) 500 100
        "compute" [VaSlot.int 42, VaSlot.pointer 1000, VaSlot.pointer 2000] empty_memory
      = .error (UB.va_list_pointer_mismatch,
          [Event.acquire Resource.iface_info, Event.acquire Resource.func_info,
           Event.release Resource.iface_info, Event.acquire Resource.retval_info,
           Event.acquire Resource.in_args, Event.acquire Resource.out_args,
           Event.acquire (Resource.arg_info 0), Event.acquire (Resource.arg_type_info 0)]) :=
  ⟨by decide, rfl⟩

/-- Decoding under a tag overwrites the member of the tag with a value that the
slot determines, and changes no other member. -/
theorem read_next_argument_writes_member (narrow : gdouble → gfloat) (T : GITypeTag)
    (f : GField) (s : VaSlot) (rest : va_list) (hf : member_of_tag T = some f)
    (hs : tag_fits_slot T s = true) :
    ∃ g0, ∀ cur, read_next_argument narrow cur (s :: rest) T
      = .ok (true, GArgument.with_member f g0 cur, rest) := by
  refine ⟨(match read_next_argument narrow GArgument.zero [s] T with
    | .ok (_, g, _) => g
    | .error _ => GArgument.zero), fun cur => ?_⟩
  cases T <;> cases s <;> simp [tag_fits_slot] at hs <;>
    simp only [member_of_tag, Option.some.injEq] at hf <;> subst hf <;> rfl

/-- Encoding under a tag into a non-null destination stores the member of the
tag, read from the `GArgument`. -/
theorem set_return_value_reads_member (d : gpointer) (r : GArgument) (T : GITypeTag)
    (mem : Memory) (f : GField) (hd : d ≠ 0) (hf : member_of_tag T = some f) :
    set_return_value d r T mem = (true, mem.store d (r.member f)) := by
  cases T <;> simp [member_of_tag] at hf <;> subst hf <;>
    simp [set_return_value, hd, GArgument.member]

/-- C12. Decode and encode accept the same tags and use the same member.  For
every tag `T`, recognised or not: `set_return_value` with a non-null
destination returns `TRUE` exactly when `T` is recognised, and whenever
`read_next_argument` returns, it returns `TRUE` exactly when `T` is recognised.
On an unrecognised tag the decode returns `FALSE` on every cursor, consuming
and storing nothing, and the encode returns `FALSE` and stores nothing.  On a
recognised tag there is one member `f`, the member of the tag, such that: on
every cursor whose next slot has the size class of the tag (there is such a
slot) the decode returns `TRUE` and its result is the previous `GArgument`
with the member `f` overwritten by a value that the slot determines; and the
encode returns `TRUE` and stores at the destination the member `f` read from
the `GArgument` it is given. -/
theorem decode_encode_same_tags (narrow : gdouble → gfloat) (T : GITypeTag)
    (d : gpointer) (mem : Memory) (hd : d ≠ 0) :
    (∀ r, (set_return_value d r T mem).1 = recognised T) ∧
    (∀ cur args b g rest, read_next_argument narrow cur args T = .ok (b, g, rest) →
      b = recognised T) ∧
    (recognised T = false →
      (∀ cur args, read_next_argument narrow cur args T = .ok (false, cur, args)) ∧
      ∀ r, set_return_value d r T mem = (false, mem)) ∧
    (recognised T = true →
      ∃ f, member_of_tag T = some f ∧ (∃ s, tag_fits_slot T s = true) ∧
        (∀ s rest, tag_fits_slot T s = true →
          ∃ g0, ∀ cur, read_next_argument narrow cur (s :: rest) T
            = .ok (true, GArgument.with_member f g0 cur, rest)) ∧
        (∀ r, set_return_value d r T mem = (true, mem.store d (r.member f)))) := by
  refine ⟨?_, ?_, ?_, ?_⟩
  · intro r
    cases T <;> simp [set_return_value, hd, recognised]
  · intro cur args b g rest h
    obtain ⟨h1, h2⟩ := read_next_argument_ok narrow cur args T b g rest h
    cases b with
    | true => exact (h1 rfl).1.symm
    | false => exact (h2 rfl).1.symm
  · intro h
    cases T <;> simp [recognised] at h
    exact ⟨fun cur args => rfl, fun r => by simp [set_return_value, hd]⟩
  · intro h
    obtain ⟨f, hf⟩ : ∃ f, member_of_tag T = some f := by
      cases T <;> simp [recognised] at h <;> exact ⟨_, rfl⟩
    refine ⟨f, hf, ?_, fun s rest hs => read_next_argument_writes_member narrow T f s rest hf hs,
      fun r => set_return_value_reads_member d r T mem f hd hf⟩
    cases T <;> simp [recognised] at h
    all_goals first
      | exact ⟨VaSlot.int 0, rfl⟩
      | exact ⟨VaSlot.word64 0, rfl⟩
      | exact ⟨VaSlot.double ⟨0⟩, rfl⟩
      | exact ⟨VaSlot.pointer 0, rfl⟩

/-- Witness of `decode_encode_same_tags`: the tag `GI_TYPE_TAG_INT16` with the
destination address `16`. -/
theorem decode_encode_same_tags_witness :
    ∃ f, member_of_tag GI_TYPE_TAG_INT16 = some f ∧
      (∃ s, tag_fits_slot GI_TYPE_TAG_INT16 s = true) ∧
      (∀ s rest, tag_fits_slot GI_TYPE_TAG_INT16 s = true →
        ∃ g0, ∀ cur, read_next_argument (fun _ => ⟨0⟩) cur (s :: rest) GI_TYPE_TAG_INT16
          = .ok (true, GArgument.with_member f g0 cur, rest)) ∧
      (∀ r, set_return_value 16 r GI_TYPE_TAG_INT16 empty_memory
        = (true, Memory.store empty_memory 16 (r.member f))) :=
  (decode_encode_same_tags (fun _ => ⟨0⟩) GI_TYPE_TAG_INT16 16 empty_memory (by decide)).2.2.2
    rfl

theorem slot_int32_eq (v : Int) : slot_int32 v = to_gint32 v := by
  simp only [slot_int32, as_signed, reduce_to_width, to_gint32]
  norm_num
  split <;> omega

theorem as_signed_8_eq (x : Int) : as_signed 8 (reduce_to_width 8 x) = to_gint8 x := by
  simp only [as_signed, reduce_to_width, to_gint8]
  norm_num
  split <;> omega

theorem as_signed_16_eq (x : Int) : as_signed 16 (reduce_to_width 16 x) = to_gint16 x := by
  simp only [as_signed, reduce_to_width, to_gint16]
  norm_num
  split <;> omega

theorem as_signed_64_eq (x : Int) : as_signed 64 (reduce_to_width 64 x) = to_gint64 x := by
  simp only [as_signed, reduce_to_width, to_gint64]
  norm_num
  split <;> omega

theorem reduce_8_eq (x : Int) : reduce_to_width 8 x = to_guint8 x := by
  simp only [reduce_to_width, to_guint8]; norm_num

theorem reduce_16_eq (x : Int) : reduce_to_width 16 x = to_guint16 x := by
  simp only [reduce_to_width, to_guint16]; norm_num

theorem reduce_32_eq (x : Int) : reduce_to_width 32 x = to_guint32 x := by
  simp only [reduce_to_width, to_guint32]; norm_num

theorem reduce_64_eq (x : Int) : reduce_to_width 64 x = to_guint64 x := by
  simp only [reduce_to_width, to_guint64]; norm_num

theorem as_signed_guint8 (x : Int) : as_signed 8 (to_guint8 x) = to_gint8 x := by
  rw [← reduce_8_eq]; exact as_signed_8_eq x

theorem as_signed_guint16 (x : Int) : as_signed 16 (to_guint16 x) = to_gint16 x := by
  rw [← reduce_16_eq]; exact as_signed_16_eq x

theorem as_signed_guint64 (x : Int) : as_signed 64 (to_guint64 x) = to_gint64 x := by
  rw [← reduce_64_eq]; exact as_signed_64_eq x

/-- C13. Promoted-width decoding, for a recognised tag `T` and a cursor whose
next slot is `s`.  The decode equals the reference definition by promoted
width: it returns `TRUE`, stores the reference value and leaves exactly the
slots after `s`, or the slot has another size class than the tag reads and the
behaviour is undefined; on an exhausted cursor the behaviour is undefined.  So
whenever the decode returns, it returned `TRUE` and consumed exactly one slot.
For boolean, int8, uint8, int16 and uint16 the slot read is int-sized and the
stored member equals the promoted native value whenever that value is in the
range of the tag; for float and double the slot read is double-sized; for an
opaque-reference tag the slot read is a pointer, stored unchanged in
`v_pointer`. -/
theorem promoted_width_decoding (narrow : gdouble → gfloat) (T : GITypeTag)
    (cur : GArgument) (s : VaSlot) (rest : va_list) (hT : recognised T = true) :
    (read_next_argument narrow cur (s :: rest) T =
      match promoted_decode narrow T s cur with
      | some g => .ok (true, g, rest)
      | none => .error UB.va_arg_type_mismatch) ∧
    read_next_argument narrow cur [] T = .error UB.va_arg_exhausted ∧
    (∀ b g rest1, read_next_argument narrow cur (s :: rest) T = .ok (b, g, rest1) →
      b = true ∧ rest1 = rest ∧
      (small_int_tag T = true →
        (∃ v, s = VaSlot.int v) ∧
        ∀ nv, representable T nv = true → promote nv = some s →
          selected_field T g = some nv) ∧
      (floating_tag T = true → ∃ v, s = VaSlot.double v) ∧
      (opaque_tag T = true → ∃ p, s = VaSlot.pointer p ∧ g = { cur with v_pointer := p })) := by
  refine ⟨?_, ?_, ?_⟩
  · cases T <;> simp [recognised] at hT <;> cases s <;>
      simp [read_next_argument, promoted_decode, va_arg_int, va_arg_word64, va_arg_gdouble,
        va_arg_gpointer, slot_int32_eq, reduce_8_eq, reduce_16_eq, reduce_32_eq, reduce_64_eq,
        as_signed_guint8, as_signed_guint16, as_signed_guint64]
  · cases T <;> simp [recognised] at hT <;>
      simp [read_next_argument, va_arg_int, va_arg_word64, va_arg_gdouble, va_arg_gpointer]
  · intro b g rest1 h
    cases T <;> simp [recognised] at hT <;> cases s <;>
      simp [read_next_argument, va_arg_int, va_arg_word64, va_arg_gdouble,
        va_arg_gpointer] at h <;>
      obtain ⟨rfl, rfl, rfl⟩ := h <;>
      simp [small_int_tag, floating_tag, opaque_tag] <;>
      intro nv hnv hp <;>
      cases nv <;> simp [representable, promote] at hnv hp <;>
      subst hp <;>
      simp only [selected_field, Option.some.injEq] <;>
      first
        | rw [to_gint32_of_range _ hnv]
        | rw [to_gint8_of_range _ hnv]
        | rw [to_guint8_of_range _ hnv]
        | rw [to_gint16_of_range _ hnv]
        | rw [to_guint16_of_range _ hnv]

/-- Witness of `promoted_width_decoding`: under `GI_TYPE_TAG_INT8` the int-sized
slot `300`, which is outside the range of `gint8`, is stored as `44`. -/
theorem promoted_width_decoding_witness :
    read_next_argument (fun _ => ⟨0⟩) GArgument.zero [VaSlot.int 300, VaSlot.pointer 1000]
        GI_TYPE_TAG_INT8
      = .ok (true, { GArgument.zero with v_int8 := 44 }, [VaSlot.pointer 1000]) :=
  (promoted_width_decoding (fun _ => ⟨0⟩) GI_TYPE_TAG_INT8 GArgument.zero (VaSlot.int 300)
    [VaSlot.pointer 1000] (by decide)).1.trans rfl

/-! ### Array bounds in the marshaling loop -/

/-- One iteration with both next array slots inside the allocations: undefined
behaviour never comes from an array write; when the iteration returns, the
arrays keep their sizes and the counts advance by the direction of the
argument. -/
theorem marshal_arg_safe (narrow : gdouble → gfloat) (i : Nat) (p : GIArgInfo)
    (st : MarshalState) (hin : st.n_in_args < st.in_args.length)
    (hout : st.n_out_args < st.out_args.length) :
    (∀ e tr1, marshal_arg narrow i p st = .error (e, tr1) →
      e ≠ UB.in_args_out_of_bounds ∧ e ≠ UB.out_args_out_of_bounds) ∧
    (∀ st1, marshal_arg narrow i p st = .ok st1 →
      st1.in_args.length = st.in_args.length ∧ st1.out_args.length = st.out_args.length ∧
      st1.n_in_args = st.n_in_args + (if is_input p then 1 else 0) ∧
      st1.n_out_args = st.n_out_args + (if is_output p then 1 else 0)) := by
  unfold marshal_arg
  cases hdir : p.direction with
  | GI_DIRECTION_IN =>
    simp only
    split
    · refine ⟨fun e1 tr1 h => by simp at h, fun st1 h => ?_⟩
      simp only [Except.ok.injEq] at h
      subst h
      simp [is_input, is_output, hdir]
    · refine ⟨fun e1 tr1 h => ?_, fun st1 h => by simp at h⟩
      simp only [Except.error.injEq, Prod.mk.injEq] at h
      rw [← h.1]
      exact ⟨by decide, by decide⟩
  | GI_DIRECTION_INOUT =>
    simp only
    rcases hargs : st.args with _ | ⟨s, ss⟩
    · simp [va_arg_gpointer]
    · cases s <;> simp [va_arg_gpointer, array_write, hin, hout, is_input, is_output, hdir]
  | GI_DIRECTION_OUT =>
    simp only
    rcases hargs : st.args with _ | ⟨s, ss⟩
    · simp [va_arg_gpointer]
    · cases s <;> simp [va_arg_gpointer, array_write, hout, is_input, is_output, hdir]

/-- The loop started with room for every remaining parameter in both arrays:
undefined behaviour never comes from an array write; when the loop returns, the
arrays keep their sizes and the counts advance by at most the numbers of input
and output parameters. -/
theorem marshal_loop_safe (narrow : gdouble → gfloat) :
    ∀ (params : List GIArgInfo) (i : Nat) (st : MarshalState),
      st.n_in_args + params.length ≤ st.in_args.length →
      st.n_out_args + params.length ≤ st.out_args.length →
      (∀ e tr1, marshal_loop narrow i params st = .error (e, tr1) →
        e ≠ UB.in_args_out_of_bounds ∧ e ≠ UB.out_args_out_of_bounds) ∧
      (∀ st1, marshal_loop narrow i params st = .ok st1 →
        st1.in_args.length = st.in_args.length ∧ st1.out_args.length = st.out_args.length ∧
        st1.n_in_args ≤ st.n_in_args + params.countP is_input ∧
        st1.n_out_args ≤ st.n_out_args + params.countP is_output) := by
  intro params
  induction params with
  | nil =>
    intro i st _ _
    refine ⟨fun e tr1 h => by simp [marshal_loop] at h, fun st1 h => ?_⟩
    simp only [marshal_loop, Except.ok.injEq] at h
    subst h
    simp
  | cons p ps ih =>
    intro i st hin hout
    simp only [List.length_cons] at hin hout
    cases hret : st.ret with
    | false =>
      simp only [marshal_loop, hret, Bool.false_eq_true, if_false]
      refine ⟨fun e tr1 h => by simp at h, fun st1 h => ?_⟩
      simp only [Except.ok.injEq] at h
      subst h
      simp
    | true =>
      obtain ⟨herr, hok⟩ := marshal_arg_safe narrow i p st (by omega) (by omega)
      simp only [marshal_loop, hret, if_true]
      cases hstep : marshal_arg narrow i p st with
      | error e =>
        obtain ⟨e1, tr1⟩ := e
        refine ⟨fun e2 tr2 h => ?_, fun st1 h => by simp at h⟩
        simp only [Except.error.injEq, Prod.mk.injEq] at h
        rw [← h.1]
        exact herr e1 tr1 hstep
      | ok st1 =>
        obtain ⟨hl1, hl2, hn1, hn2⟩ := hok st1 hstep
        have hn1' : st1.n_in_args ≤ st.n_in_args + 1 := by rw [hn1]; split <;> omega
        have hn2' : st1.n_out_args ≤ st.n_out_args + 1 := by rw [hn2]; split <;> omega
        obtain ⟨herr2, hok2⟩ := ih (i + 1) st1 (by omega) (by omega)
        refine ⟨herr2, fun st2 h => ?_⟩
        obtain ⟨h1, h2, h3, h4⟩ := hok2 st2 h
        refine ⟨by omega, by omega, ?_, ?_⟩
        · rw [List.countP_cons]; omega
        · rw [List.countP_cons]; omega

/-- One iteration for an OUT or INOUT argument on a pointer slot, with both next
array slots inside the allocations, is defined and consumes that slot. -/
theorem marshal_arg_defined (narrow : gdouble → gfloat) (i : Nat) (p : GIArgInfo)
    (st : MarshalState) (s : VaSlot) (ss : va_list)
    (hin : st.n_in_args < st.in_args.length) (hout : st.n_out_args < st.out_args.length)
    (hargs : st.args = s :: ss) (hdir : p.direction ≠ GI_DIRECTION_IN)
    (hfit : slot_fits p s = true) :
    ∃ st1, marshal_arg narrow i p st = .ok st1 ∧ st1.args = ss := by
  unfold marshal_arg
  cases hd : p.direction with
  | GI_DIRECTION_IN => exact absurd hd hdir
  | GI_DIRECTION_INOUT =>
    cases s <;> simp [slot_fits, hd] at hfit
    simp [hargs, va_arg_gpointer, array_write, hin, hout]
  | GI_DIRECTION_OUT =>
    cases s <;> simp [slot_fits, hd] at hfit
    simp [hargs, va_arg_gpointer, array_write, hout]

/-- The loop started with room for every remaining parameter in both arrays,
on a descriptor and a variadic sequence that keep it defined, returns. -/
theorem marshal_loop_defined (narrow : gdouble → gfloat) :
    ∀ (params : List GIArgInfo) (i : Nat) (st : MarshalState),
      st.n_in_args + params.length ≤ st.in_args.length →
      st.n_out_args + params.length ≤ st.out_args.length →
      va_defined params st.args = true →
      ∃ st1, marshal_loop narrow i params st = .ok st1 := by
  intro params
  induction params with
  | nil => intro i st _ _ _; exact ⟨st, rfl⟩
  | cons p ps ih =>
    intro i st hin hout hdef
    simp only [List.length_cons] at hin hout
    cases hret : st.ret with
    | false => exact ⟨st, marshal_loop_of_ret_false narrow i _ st hret⟩
    | true =>
      simp only [marshal_loop, hret, if_true]
      by_cases hdir : p.direction = GI_DIRECTION_IN
      · simp only [va_defined, hdir, if_true, Bool.not_eq_true'] at hdef
        obtain ⟨c, hc⟩ : ∃ c, p.type_info.tag = GITypeTag.OTHER c := by
          cases htag : p.type_info.tag <;> simp [htag, recognised] at hdef
          exact ⟨_, rfl⟩
        simp only [marshal_arg, hdir, hc, read_next_argument]
        exact ⟨_, marshal_loop_of_ret_false narrow _ ps _ rfl⟩
      · simp only [va_defined, hdir, if_false] at hdef
        rcases hargs : st.args with _ | ⟨s, ss⟩
        · simp [hargs] at hdef
        · simp only [hargs, Bool.and_eq_true] at hdef
          obtain ⟨st1, hst1, ha1⟩ := marshal_arg_defined narrow i p st s ss (by omega)
            (by omega) hargs hdir hdef.1
          obtain ⟨hl1, hl2, hn1, hn2⟩ :=
            (marshal_arg_safe narrow i p st (by omega) (by omega)).2 st1 hst1
          have hn1' : st1.n_in_args ≤ st.n_in_args + 1 := by rw [hn1]; split <;> omega
          have hn2' : st1.n_out_args ≤ st.n_out_args + 1 := by rw [hn2]; split <;> omega
          simp only [hst1]
          exact ih (i + 1) st1 (by omega) (by omega) (by rw [ha1]; exact hdef.2)

/-- The marshaling phase: undefined behaviour never comes from an array write;
when the phase returns the arrays have the allocated sizes `n + 1` and `n` and
the filled counts are at most `1 + k` and `m`. -/
theorem marshal_safe (narrow : gdouble → gfloat) (inst : gpointer) (fi : GICallableInfo)
    (args : va_list) (tr : List Event) :
    (∀ e tr1, marshal narrow inst fi args tr = .error (e, tr1) →
      e ≠ UB.in_args_out_of_bounds ∧ e ≠ UB.out_args_out_of_bounds) ∧
    (∀ st, marshal narrow inst fi args tr = .ok st →
      st.in_args.length = fi.args.length + 1 ∧ st.out_args.length = fi.args.length ∧
      st.n_in_args ≤ 1 + fi.args.countP is_input ∧
      st.n_out_args ≤ fi.args.countP is_output) := by
  simp only [marshal, array_write_instance]
  have h := marshal_loop_safe narrow fi.args 0
    { ret := true, in_args := pointer_argument inst :: List.replicate fi.args.length GArgument.zero,
      n_in_args := 1, out_args := List.replicate fi.args.length GArgument.zero,
      n_out_args := 0, args := args,
      trace := tr ++ [Event.acquire Resource.retval_info, Event.acquire Resource.in_args,
        Event.acquire Resource.out_args] }
    (by simp; omega) (by simp)
  refine ⟨h.1, fun st hst => ?_⟩
  have h2 := h.2 st hst
  simpa using h2

/-- The marshaling phase on a descriptor and a variadic sequence that keep it
defined returns. -/
theorem marshal_defined (narrow : gdouble → gfloat) (inst : gpointer) (fi : GICallableInfo)
    (args : va_list) (tr : List Event) (h : va_defined fi.args args = true) :
    ∃ st, marshal narrow inst fi args tr = .ok st := by
  simp only [marshal, array_write_instance]
  exact marshal_loop_defined narrow fi.args 0 _ (by simp; omega) (by simp) h

/-! ### The claims about the resolver, bounds and resources -/

/-- C14. Resolver category restriction: the descriptor that
`peas_method_get_info` returns is, for a type found in the registry, what the
object lookup returns when the category is object, what the interface lookup
returns when the category is interface, and `NULL` for every other category;
for a type not found it is `NULL`, whatever the method name.  So a descriptor
is returned only for a type that is found and whose category is object or
interface. -/
theorem resolver_category_restriction (lib : Collaborators) (iface_type : GType)
    (method_name : String) :
    (peas_method_get_info lib iface_type method_name).1 =
      (match lib.g_irepository_find_by_gtype iface_type with
       | none => none
       | some info =>
         match info.info_type with
         | GI_INFO_TYPE_OBJECT => lib.g_object_info_find_method info method_name
         | GI_INFO_TYPE_INTERFACE => lib.g_interface_info_find_method info method_name
         | GIInfoType.OTHER _ => none) ∧
    ∀ fi, (peas_method_get_info lib iface_type method_name).1 = some fi →
      ∃ info, lib.g_irepository_find_by_gtype iface_type = some info ∧
        (info.info_type = GI_INFO_TYPE_OBJECT ∧
            lib.g_object_info_find_method info method_name = some fi ∨
         info.info_type = GI_INFO_TYPE_INTERFACE ∧
            lib.g_interface_info_find_method info method_name = some fi) := by
  unfold peas_method_get_info
  cases hfind : lib.g_irepository_find_by_gtype iface_type with
  | none => simp
  | some info =>
    cases hcat : info.info_type with
    | GI_INFO_TYPE_OBJECT =>
      simp only [hcat]
      cases hm : lib.g_object_info_find_method info method_name <;> simp [hcat, hm]
    | GI_INFO_TYPE_INTERFACE =>
      simp only [hcat]
      cases hm : lib.g_interface_info_find_method info method_name <;> simp [hcat, hm]
    | OTHER c => simp [hcat]

/-- Witness of `resolver_category_restriction`: in a registry whose type `100`
is an object, `compute` resolves to what the object lookup returns; the same
registry with another category for the type resolves nothing. -/
theorem resolver_category_restriction_witness :
    (peas_method_get_info (category_registry GI_INFO_TYPE_OBJECT) 100 "compute").1
      = some scenario_info ∧
    (peas_method_get_info (category_registry GI_INFO_TYPE_INTERFACE) 100 "compute").1
      = some void_info ∧
    (peas_method_get_info (category_registry (GIInfoType.OTHER 3)) 100 "compute").1 = none ∧
    (peas_method_get_info (category_registry GI_INFO_TYPE_OBJECT) 7 "compute").1 = none ∧
    ∃ info, (category_registry GI_INFO_TYPE_OBJECT).g_irepository_find_by_gtype 100
        = some info ∧
      (info.info_type = GI_INFO_TYPE_OBJECT ∧
          (category_registry GI_INFO_TYPE_OBJECT).g_object_info_find_method info "compute"
            = some scenario_info ∨
       info.info_type = GI_INFO_TYPE_INTERFACE ∧
          (category_registry GI_INFO_TYPE_OBJECT).g_interface_info_find_method info "compute"
            = some scenario_info) :=
  ⟨(resolver_category_restriction (category_registry GI_INFO_TYPE_OBJECT) 100 "compute").1.trans
      (by decide),
   (resolver_category_restriction (category_registry GI_INFO_TYPE_INTERFACE) 100
      "compute").1.trans (by decide),
   (resolver_category_restriction (category_registry (GIInfoType.OTHER 3)) 100
      "compute").1.trans (by decide),
   (resolver_category_restriction (category_registry GI_INFO_TYPE_OBJECT) 7 "compute").1.trans
      (by decide),
   (resolver_category_restriction (category_registry GI_INFO_TYPE_OBJECT) 100 "compute").2
      scenario_info (by decide)⟩

/-- C15, as stated, fails for the input array: for the method without
parameters, `n = 0`, the marshaling phase places one entry, the instance, into
the input array. -/
theorem fill_counts_counterexample :
    ∃ st, marshal (fun _ => ⟨0⟩) 500 no_args_info [] [] = .ok st ∧
      no_args_info.args.length = 0 ∧ st.n_in_args = 1 ∧
      st.in_args = [pointer_argument 500] :=
  ⟨_, rfl, rfl, rfl, rfl⟩

/-- C15, amended. Fill counts bounded by the allocation: for every method
descriptor with `n` declared arguments, whenever the marshaling loop finishes,
the number of entries placed into the input array is at most `n + 1` (the
instance and at most one entry per declared argument) and the number placed
into the output array is at most `n`.  The loop does finish on every descriptor
and variadic sequence that keep it inside defined behaviour. -/
theorem fill_counts_bounded (narrow : gdouble → gfloat) (inst : gpointer)
    (fi : GICallableInfo) (args : va_list) (tr : List Event) :
    (∀ st, marshal narrow inst fi args tr = .ok st →
      st.n_in_args ≤ fi.args.length + 1 ∧ st.n_out_args ≤ fi.args.length) ∧
    (va_defined fi.args args = true → ∃ st, marshal narrow inst fi args tr = .ok st) := by
  refine ⟨fun st hst => ?_, marshal_defined narrow inst fi args tr⟩
  obtain ⟨-, -, h1, h2⟩ := (marshal_safe narrow inst fi args tr).2 st hst
  have hci := List.countP_le_length is_input (l := fi.args)
  have hco := List.countP_le_length is_output (l := fi.args)
  exact ⟨by omega, by omega⟩

/-- Witness of `fill_counts_bounded`: the method `(OUT double)` with `n = 1`,
called with `(&outDouble, &outInt64)`. -/
theorem fill_counts_bounded_witness :
    ∃ st, marshal (fun _ => ⟨0⟩) 500 out_only_info out_only_args [] = .ok st ∧
      st.n_in_args ≤ out_only_info.args.length + 1 ∧
      st.n_out_args ≤ out_only_info.args.length := by
  obtain ⟨st, hst⟩ :=
    (fill_counts_bounded (fun _ => ⟨0⟩) 500 out_only_info out_only_args []).2 (by decide)
  exact ⟨st, hst,
    (fill_counts_bounded (fun _ => ⟨0⟩) 500 out_only_info out_only_args []).1 st hst⟩

/-- C17. Array writes stay inside the allocation: for every method descriptor,
whatever the directions and tags, and every variadic sequence, neither the
marshaling phase nor the whole call ever takes an out-of-bounds branch of an
array write: whatever undefined behaviour they reach, it is not a write outside
`in_args` or `out_args`.  When the marshaling phase returns, the arrays still
have the allocated sizes `n + 1` and `n`; and it does return on every
descriptor and variadic sequence that keep it inside defined behaviour, also
for `n = 0`. -/
theorem array_writes_in_bounds (lib : Collaborators) (inst : gpointer) (iface_type : GType)
    (method_name : String) (args : va_list) (mem : Memory) (narrow : gdouble → gfloat)
    (fi : GICallableInfo) (tr : List Event) :
    (∀ e tr1, marshal narrow inst fi args tr = .error (e, tr1) →
      e ≠ UB.in_args_out_of_bounds ∧ e ≠ UB.out_args_out_of_bounds) ∧
    (∀ e tr1,
      peas_method_apply_valist lib inst iface_type method_name args mem = .error (e, tr1) →
      e ≠ UB.in_args_out_of_bounds ∧ e ≠ UB.out_args_out_of_bounds) ∧
    (∀ st, marshal narrow inst fi args tr = .ok st →
      st.in_args.length = fi.args.length + 1 ∧ st.out_args.length = fi.args.length) ∧
    (va_defined fi.args args = true → ∃ st, marshal narrow inst fi args tr = .ok st) := by
  refine ⟨(marshal_safe narrow inst fi args tr).1, ?_,
    fun st hst => ?_, marshal_defined narrow inst fi args tr⟩
  · intro e tr1 h
    unfold peas_method_apply_valist at h
    rcases hget : peas_method_get_info lib iface_type method_name with ⟨_ | f, t⟩
    · simp [hget] at h
    · simp only [hget] at h
      cases hmar : marshal lib.gdouble_to_gfloat inst f args t with
      | error e1 =>
        obtain ⟨e2, tr2⟩ := e1
        simp only [hmar, Except.error.injEq, Prod.mk.injEq] at h
        rw [← h.1]
        exact (marshal_safe _ inst f args t).1 e2 tr2 hmar
      | ok st =>
        simp only [hmar] at h
        split at h
        · simp at h
        · split at h
          · simp at h
          · split at h
            · rcases hargs : st.args with _ | ⟨s, ss⟩
              · simp [hargs, va_arg_gpointer] at h
                simp [← h.1]
              · cases s <;> simp [hargs, va_arg_gpointer] at h
                all_goals simp [← h.1]
            · simp at h
  · obtain ⟨h1, h2, -, -⟩ := (marshal_safe narrow inst fi args tr).2 st hst
    exact ⟨h1, h2⟩

/-- Witness of `array_writes_in_bounds`: the method without parameters
(`n = 0`) marshals without leaving its arrays of sizes `1` and `0`, and the
call of the method `(INOUT int32)` on an empty variadic sequence stops in
`va_arg`, not in an array write. -/
theorem array_writes_in_bounds_witness :
    (∃ st, marshal (fun _ => ⟨0⟩) 500 no_args_info [] [] = .ok st ∧
      st.in_args.length = 0 + 1 ∧ st.out_args.length = 0) ∧
    (UB.va_arg_exhausted ≠ UB.in_args_out_of_bounds ∧
      UB.va_arg_exhausted ≠ UB.out_args_out_of_bounds) :=
  ⟨match (array_writes_in_bounds (registry_with no_args_info scenario_invoke) 500 100
        "compute" [] empty_memory (fun _ => ⟨0⟩) no_args_info []).2.2.2 (by decide) with
    | ⟨st, hst⟩ =>
      ⟨st, hst,
        ((array_writes_in_bounds (registry_with no_args_info scenario_invoke) 500 100
          "compute" [] empty_memory (fun _ => ⟨0⟩) no_args_info []).2.2.1 st hst)⟩,
   (array_writes_in_bounds (registry_with void_info scenario_invoke) 500 100 "compute"
      [] empty_memory (fun _ => ⟨0⟩) void_info []).2.1 UB.va_arg_exhausted
      [Event.acquire Resource.iface_info, Event.acquire Resource.func_info,
        Event.release Resource.iface_info, Event.acquire Resource.retval_info,
        Event.acquire Resource.in_args, Event.acquire Resource.out_args,
        Event.acquire (Resource.arg_info 0), Event.acquire (Resource.arg_type_info 0)]
      rfl⟩

theorem track_append (xs ys : List Event) :
    ∀ held, track held (xs ++ ys) = (track held xs).bind fun h => track h ys := by
  induction xs with
  | nil => intro held; rfl
  | cons e es ih =>
    intro held
    cases e with
    | acquire r => simp [track, ih]
    | release r =>
      by_cases hr : r ∈ held
      · simp [track, hr, ih]
      · simp [track, hr]
    | invoke a n b m ok => simp [track, ih]
    | set_return_value p => simp [track, ih]

theorem track_loop_events (k : Nat) :
    ∀ (i : Nat) (held : List Resource), track held (loop_events i k) = some held := by
  induction k with
  | zero => intro i held; rfl
  | succ k ih =>
    intro i held
    simp [loop_events, track, ih]

/-- The events of the lookup leave nothing held when no descriptor is returned
and exactly the descriptor when one is returned. -/
theorem get_info_track (lib : Collaborators) (iface_type : GType) (method_name : String) :
    track [] (peas_method_get_info lib iface_type method_name).2 =
      some (match (peas_method_get_info lib iface_type method_name).1 with
            | none => []
            | some _ => [Resource.func_info]) := by
  unfold peas_method_get_info
  cases lib.g_irepository_find_by_gtype iface_type with
  | none => rfl
  | some info =>
    simp only
    split <;> simp [track]

/-- The marshaling phase, when it returns, has recorded the three acquisitions
before the loop and the events of the iterations it ran. -/
theorem marshal_trace_shape (narrow : gdouble → gfloat) (inst : gpointer)
    (fi : GICallableInfo) (args : va_list) (tr : List Event) (st : MarshalState)
    (h : marshal narrow inst fi args tr = .ok st) :
    ∃ k, st.trace = tr ++ [Event.acquire Resource.retval_info,
      Event.acquire Resource.in_args, Event.acquire Resource.out_args] ++ loop_events 0 k := by
  simp only [marshal, array_write_instance] at h
  obtain ⟨k, -, hk⟩ := marshal_loop_trace narrow _ _ _ _ h
  exact ⟨k, hk⟩

/-- C16. Release on every exit path: for every call that returns, whichever
exit it takes (not found, decode failure, invocation failure, encode failure,
success), following the acquisitions and releases of its trace from nothing
held never meets a release of a resource that is not held, and ends with
nothing held: every resource acquired during the call is released exactly once
before the call returns and nothing is released that was not acquired. -/
theorem release_on_every_exit (lib : Collaborators) (inst : gpointer) (iface_type : GType)
    (method_name : String) (args : va_list) (mem : Memory) (res : ApplyResult)
    (h : peas_method_apply_valist lib inst iface_type method_name args mem = .ok res) :
    track [] res.trace = some [] := by
  have hq := get_info_track lib iface_type method_name
  unfold peas_method_apply_valist at h
  rcases hget : peas_method_get_info lib iface_type method_name with ⟨_ | fi, tr⟩
  · simp only [hget, Except.ok.injEq] at h hq
    subst h
    exact hq
  · simp only [hget] at h hq
    cases hmar : marshal lib.gdouble_to_gfloat inst fi args tr with
    | error e => simp [hmar] at h
    | ok st =>
      obtain ⟨k, hk⟩ := marshal_trace_shape _ _ _ _ _ _ hmar
      have hst : track [] st.trace = some [Resource.out_args, Resource.in_args,
          Resource.retval_info, Resource.func_info] := by
        rw [hk, track_append, track_append, hq]
        simp [track, track_loop_events]
      simp only [hmar] at h
      split at h
      · simp only [Except.ok.injEq] at h
        subst h
        simp [track_append, hst, track, cleanup]
      · split at h
        · simp only [Except.ok.injEq] at h
          subst h
          simp [track_append, hst, track, cleanup]
        · split at h
          · rcases hargs : st.args with _ | ⟨s, ss⟩
            · simp [hargs, va_arg_gpointer] at h
            · cases s <;> simp [hargs, va_arg_gpointer] at h
              subst h
              simp [track_append, hst, track, cleanup]
          · simp only [Except.ok.injEq] at h
            subst h
            simp [track_append, hst, track, cleanup]

/-- Witness of `release_on_every_exit`: the successful call of the method
`(OUT double)` returning `int64` with `(&outDouble, &outInt64)`. -/
theorem release_on_every_exit_witness :
    ∃ res,
      peas_method_apply_valist (registry_with out_only_info scenario_invoke) 500 100 "compute"
        out_only_args empty_memory = .ok res ∧ res.ret = true ∧
      track [] res.trace = some [] :=
  ⟨_, rfl, rfl,
    release_on_every_exit (registry_with out_only_info scenario_invoke) 500 100 "compute"
      out_only_args empty_memory _ rfl⟩

end Peas
